import Mathlib

/-!
Verification of the gix compute-job brokerage core against its specification.

The development shallowly embeds the Rust sources of the three daemons
(ajr-router, gcam-node, gsee-runtime) and the gix-gxf envelope codec into
Lean.  Machine integers are modelled as `Nat` (with explicit wrap-around
where it matters), Rust `f64` arithmetic is modelled exactly as rational
arithmetic followed by IEEE-754 binary64 round-to-nearest-even, and fallible
Rust functions return `Except`/`Option`.
-/

unseal Rat.add Rat.mul Rat.inv Rat.sub

set_option maxRecDepth 10000

/-! ## Exact model of IEEE-754 binary64 (`f64`) arithmetic

A finite `f64` value is an exactly representable rational.  `f64round`
rounds an arbitrary rational to 53 significant bits, round-to-nearest with
ties to even, which is exactly what every Rust `f64` arithmetic operation
does to its exact rational result in the normal range.  (The model applies
53-bit rounding uniformly, i.e. it does not further truncate subnormals
below `2^(-1022)`; every computation in this development stays far inside
the normal range.)  Values whose rounded magnitude reaches `2^1024`
overflow to an infinity, mirroring IEEE-754. -/

/-- Fuel-driven binary logarithm; `log2fuel f n` is `⌊log₂ n⌋` for `1 ≤ n ≤ f`
(and the recursion is structural in the fuel so that the kernel can
evaluate it). -/
def log2fuel : ℕ → ℕ → ℕ
  | 0, _ => 0
  | f + 1, n => if n ≤ 1 then 0 else log2fuel f (n / 2) + 1

/-- Binary logarithm `⌊log₂ n⌋` on naturals, kernel-computable. -/
def natLog2 (n : ℕ) : ℕ := log2fuel n n

theorem log2fuel_spec : ∀ (f n : ℕ), 1 ≤ n → n ≤ f →
    2 ^ log2fuel f n ≤ n ∧ n < 2 ^ (log2fuel f n + 1) := by
  intro f
  induction f with
  | zero => intro n h1 h2; omega
  | succ f ih =>
    intro n h1 h2
    by_cases hn : n ≤ 1
    · have : n = 1 := by omega
      simp [log2fuel, hn, this]
    · have h2' : n / 2 ≤ f := by omega
      have h1' : 1 ≤ n / 2 := by omega
      obtain ⟨ha, hb⟩ := ih (n / 2) h1' h2'
      constructor
      · simpa [log2fuel, hn, pow_succ, Nat.mul_comm] using
          calc 2 ^ log2fuel f (n / 2) * 2 ≤ n / 2 * 2 := by omega
          _ ≤ n := by omega
      · have : n < 2 ^ (log2fuel f (n / 2) + 1) * 2 := by omega
        simpa [log2fuel, hn, pow_succ] using this

theorem natLog2_spec (n : ℕ) (h : 1 ≤ n) :
    2 ^ natLog2 n ≤ n ∧ n < 2 ^ (natLog2 n + 1) :=
  log2fuel_spec n n h le_rfl

/-- Nonnegative floor of a rational, kernel-computable. -/
def ratFloorNat (q : ℚ) : ℕ := q.num.toNat / q.den

theorem ratFloorNat_eq_natFloor (q : ℚ) (h : 0 ≤ q) : ratFloorNat q = ⌊q⌋₊ := by
  have hnum : (0:ℤ) ≤ q.num := Rat.num_nonneg.mpr h
  have hq : ((q.num.toNat : ℕ) : ℚ) / ((q.den : ℕ) : ℚ) = q := by
    have h1 : ((q.num.toNat : ℤ) : ℚ) = (q.num : ℚ) := by
      rw [Int.toNat_of_nonneg hnum]
    push_cast at h1 ⊢
    rw [h1]
    exact Rat.num_div_den q
  have h2 : ⌊q⌋₊ = q.num.toNat / q.den := by
    conv_lhs => rw [← hq]
    rw [← Int.floor_toNat, Rat.floor_natCast_div_natCast]
    exact Int.toNat_natCast _
  rw [h2]; rfl

theorem ratFloorNat_le (q : ℚ) (h : 0 ≤ q) : (ratFloorNat q : ℚ) ≤ q := by
  rw [ratFloorNat_eq_natFloor q h]; exact Nat.floor_le h

theorem lt_ratFloorNat_add_one (q : ℚ) (h : 0 ≤ q) : q < ratFloorNat q + 1 := by
  rw [ratFloorNat_eq_natFloor q h]; exact Nat.lt_floor_add_one q

/-- Floor of the binary logarithm of a positive rational, kernel-computable. -/
def qexp (q : ℚ) : ℤ :=
  if 1 ≤ q then (natLog2 (ratFloorNat q) : ℤ)
  else
    let k := natLog2 (ratFloorNat q⁻¹)
    if q * (2:ℚ) ^ k = 1 then -(k:ℤ) else -(k:ℤ) - 1

theorem qexp_spec (q : ℚ) (h : 0 < q) :
    (2:ℚ) ^ qexp q ≤ q ∧ q < (2:ℚ) ^ (qexp q + 1) := by
  by_cases h1 : 1 ≤ q
  · set n := ratFloorNat q with hn
    have hn1 : 1 ≤ n := by
      rw [hn, ratFloorNat_eq_natFloor q h.le]
      exact Nat.le_floor (by exact_mod_cast h1)
    obtain ⟨ha, hb⟩ := natLog2_spec n hn1
    have hfl : (n : ℚ) ≤ q := ratFloorNat_le q h.le
    have hfu : q < n + 1 := lt_ratFloorNat_add_one q h.le
    have hq : qexp q = (natLog2 n : ℤ) := by rw [qexp, if_pos h1]
    constructor
    · rw [hq, zpow_natCast]
      calc ((2:ℚ) ^ natLog2 n) = ((2 ^ natLog2 n : ℕ) : ℚ) := by push_cast; ring
        _ ≤ (n : ℚ) := by exact_mod_cast ha
        _ ≤ q := hfl
    · rw [hq]
      have : ((natLog2 n : ℤ) + 1) = ((natLog2 n + 1 : ℕ) : ℤ) := by push_cast; ring
      rw [this, zpow_natCast]
      have hnb : (n : ℚ) + 1 ≤ ((2 ^ (natLog2 n + 1) : ℕ) : ℚ) := by exact_mod_cast hb
      calc q < (n : ℚ) + 1 := hfu
        _ ≤ ((2 ^ (natLog2 n + 1) : ℕ) : ℚ) := hnb
        _ = (2:ℚ) ^ (natLog2 n + 1) := by push_cast; ring
  · have hq1 : 1 < q⁻¹ := (one_lt_inv₀ h).mpr (lt_of_not_le h1)
    have hqi : 0 < q⁻¹ := lt_trans one_pos hq1
    set n := ratFloorNat q⁻¹ with hn
    have hn1 : 1 ≤ n := by
      rw [hn, ratFloorNat_eq_natFloor _ hqi.le]
      exact Nat.le_floor (by exact_mod_cast hq1.le)
    obtain ⟨ha, hb⟩ := natLog2_spec n hn1
    have hfl : (n : ℚ) ≤ q⁻¹ := ratFloorNat_le _ hqi.le
    have hfu : q⁻¹ < n + 1 := lt_ratFloorNat_add_one _ hqi.le
    set k := natLog2 n with hk
    -- q ≤ 2⁻ᵏ and 2^(-k-1) < q
    have hup : q ≤ ((2:ℚ) ^ k)⁻¹ := by
      rw [le_inv_comm₀ h (by positivity)]
      calc ((2:ℚ) ^ k) = ((2 ^ k : ℕ) : ℚ) := by push_cast; ring
        _ ≤ (n : ℚ) := by exact_mod_cast ha
        _ ≤ q⁻¹ := hfl
    have hlo : ((2:ℚ) ^ (k + 1))⁻¹ < q := by
      rw [inv_lt_comm₀ (by positivity) h]
      calc q⁻¹ < (n : ℚ) + 1 := hfu
        _ ≤ ((2 ^ (k + 1) : ℕ) : ℚ) := by exact_mod_cast hb
        _ = (2:ℚ) ^ (k + 1) := by push_cast; ring
    by_cases heq : q * (2:ℚ) ^ k = 1
    · have hqe : qexp q = -(k:ℤ) := by rw [qexp, if_neg h1]; simp only [← hk, if_pos heq]
      have hqv : q = ((2:ℚ) ^ k)⁻¹ := by
        field_simp at heq ⊢
        linarith [heq]
      constructor
      · rw [hqe, zpow_neg, zpow_natCast, hqv]
      · rw [hqe, hqv]
        have hp : (0:ℚ) < ((2:ℚ) ^ k)⁻¹ := by positivity
        calc ((2:ℚ) ^ k)⁻¹ < 2 * ((2:ℚ) ^ k)⁻¹ := by linarith
          _ = (2:ℚ) ^ (-(k:ℤ) + 1) := by
              rw [zpow_add₀ (by norm_num : (2:ℚ) ≠ 0), zpow_neg, zpow_natCast]
              ring
    · have hqe : qexp q = -(k:ℤ) - 1 := by rw [qexp, if_neg h1]; simp only [← hk, if_neg heq]
      have hstr : q < ((2:ℚ) ^ k)⁻¹ := lt_of_le_of_ne hup (by
        intro hc
        apply heq
        rw [hc]
        field_simp)
      constructor
      · rw [hqe]
        have : (2:ℚ) ^ (-(k:ℤ) - 1) = ((2:ℚ) ^ (k + 1))⁻¹ := by
          rw [← zpow_natCast (2:ℚ) (k+1), ← zpow_neg]
          congr 1
          push_cast
          ring
        rw [this]
        exact hlo.le
      · rw [hqe]
        have : (2:ℚ) ^ (-(k:ℤ) - 1 + 1) = ((2:ℚ) ^ k)⁻¹ := by
          rw [← zpow_natCast (2:ℚ) k, ← zpow_neg]
          congr 1
          ring
        rw [this]
        exact hstr

/-- Round a rational to the nearest integer, ties to even. -/
def rne (x : ℚ) : ℤ :=
  let f := ⌊x⌋
  let r := x - f
  if r < 1/2 then f
  else if 1/2 < r then f + 1
  else if f % 2 = 0 then f else f + 1

theorem rne_bounds (x : ℚ) : x - 1 ≤ (rne x : ℚ) ∧ (rne x : ℚ) ≤ x + 1 := by
  have h1 : (⌊x⌋ : ℚ) ≤ x := Int.floor_le x
  have h2 : x < ⌊x⌋ + 1 := Int.lt_floor_add_one x
  simp only [rne]
  split_ifs <;> push_cast <;> constructor <;> linarith

/-- IEEE-754 binary64 round-to-nearest-even of a positive rational
(53 significant bits). -/
def f64roundPos (q : ℚ) : ℚ :=
  (rne (q * (2:ℚ) ^ ((52:ℤ) - qexp q)) : ℚ) * (2:ℚ) ^ (qexp q - 52)

/-- IEEE-754 binary64 round-to-nearest-even on ℚ (uniform 53-bit precision;
see the module note on subnormals). -/
def f64round (q : ℚ) : ℚ :=
  if q < 0 then -f64roundPos (-q) else if q = 0 then 0 else f64roundPos q

theorem f64roundPos_bounds (q : ℚ) (h : 0 < q) :
    q * (1 - (2:ℚ) ^ (-52 : ℤ)) ≤ f64roundPos q ∧
    f64roundPos q ≤ q * (1 + (2:ℚ) ^ (-52 : ℤ)) := by
  obtain ⟨he1, _⟩ := qexp_spec q h
  set e := qexp q with hedef
  set m := q * (2:ℚ) ^ ((52:ℤ) - e) with hm
  obtain ⟨hr1, hr2⟩ := rne_bounds m
  have hpow : (0:ℚ) < (2:ℚ) ^ (e - 52) := by positivity
  have hcancel : (2:ℚ) ^ ((52:ℤ) - e) * (2:ℚ) ^ (e - 52) = 1 := by
    rw [← zpow_add₀ (by norm_num : (2:ℚ) ≠ 0)]
    norm_num
  have hmq : m * (2:ℚ) ^ (e - 52) = q := by
    rw [hm, mul_assoc, hcancel, mul_one]
  have herr : (2:ℚ) ^ (e - 52) ≤ q * (2:ℚ) ^ (-52 : ℤ) := by
    have : (2:ℚ) ^ (e - 52) = (2:ℚ) ^ e * (2:ℚ) ^ (-52 : ℤ) := by
      rw [← zpow_add₀ (by norm_num : (2:ℚ) ≠ 0), show e + -52 = e - 52 from by ring]
    rw [this]
    have hp : (0:ℚ) < (2:ℚ) ^ (-52 : ℤ) := by positivity
    exact mul_le_mul_of_nonneg_right he1 hp.le
  have hlow : (m - 1) * (2:ℚ) ^ (e - 52) ≤ f64roundPos q := by
    unfold f64roundPos
    rw [← hedef]
    exact mul_le_mul_of_nonneg_right hr1 hpow.le
  have hhigh : f64roundPos q ≤ (m + 1) * (2:ℚ) ^ (e - 52) := by
    unfold f64roundPos
    rw [← hedef]
    exact mul_le_mul_of_nonneg_right hr2 hpow.le
  constructor
  · calc q * (1 - (2:ℚ) ^ (-52 : ℤ)) = q - q * (2:ℚ) ^ (-52:ℤ) := by ring
      _ ≤ q - (2:ℚ) ^ (e - 52) := by linarith
      _ = (m - 1) * (2:ℚ) ^ (e - 52) := by rw [sub_mul, hmq, one_mul]
      _ ≤ f64roundPos q := hlow
  · calc f64roundPos q ≤ (m + 1) * (2:ℚ) ^ (e - 52) := hhigh
      _ = q + (2:ℚ) ^ (e - 52) := by rw [add_mul, hmq, one_mul]
      _ ≤ q + q * (2:ℚ) ^ (-52:ℤ) := by linarith
      _ = q * (1 + (2:ℚ) ^ (-52 : ℤ)) := by ring

theorem f64roundPos_pos (q : ℚ) (h : 0 < q) : 0 < f64roundPos q := by
  obtain ⟨h1, _⟩ := f64roundPos_bounds q h
  have : (0:ℚ) < q * (1 - (2:ℚ) ^ (-52 : ℤ)) := by
    apply mul_pos h
    norm_num
  linarith

theorem f64roundPos_le_two_mul (q : ℚ) (h : 0 < q) : f64roundPos q ≤ 2 * q := by
  obtain ⟨_, h2⟩ := f64roundPos_bounds q h
  have : q * (1 + (2:ℚ) ^ (-52 : ℤ)) ≤ 2 * q := by
    have hb : (1 : ℚ) + (2:ℚ) ^ (-52 : ℤ) ≤ 2 := by norm_num
    nlinarith
  linarith

theorem f64round_nonneg (q : ℚ) (h : 0 ≤ q) : 0 ≤ f64round q := by
  unfold f64round
  rcases eq_or_lt_of_le h with he | hlt
  · simp [← he]
  · rw [if_neg (not_lt.mpr h), if_neg (ne_of_gt hlt)]
    exact (f64roundPos_pos q hlt).le

theorem f64round_le_two_mul (q : ℚ) (h : 0 ≤ q) : f64round q ≤ 2 * q := by
  unfold f64round
  rcases eq_or_lt_of_le h with he | hlt
  · simp [← he]
  · rw [if_neg (not_lt.mpr h), if_neg (ne_of_gt hlt)]
    exact f64roundPos_le_two_mul q hlt

/-- A Rust `f64` value: a finite (exactly representable) rational, an
infinity with a sign, or a NaN.  Signed zero is collapsed to `num 0`; no
computation in this development distinguishes `-0.0` from `0.0`. -/
inductive F64 where
  | num (q : ℚ)
  | inf (pos : Bool)
  | nan
deriving DecidableEq

/-- The IEEE-754 binary64 overflow threshold `2^1024` (written as a cast
from `ℕ` so the kernel computes the power with its accelerated
`Nat.pow`). -/
def f64Bound : ℚ := ((2 ^ 1024 : ℕ) : ℚ)

/-- Round an exact rational result into an `F64`, overflowing to infinity
at magnitude `2^1024` as IEEE-754 binary64 does. -/
def F64.round (q : ℚ) : F64 :=
  let r := f64round q
  if f64Bound ≤ r then .inf true
  else if r ≤ -f64Bound then .inf false
  else .num r

/-- `f64` addition. -/
def F64.add : F64 → F64 → F64
  | .nan, _ => .nan
  | _, .nan => .nan
  | .inf s, .inf t => if s = t then .inf s else .nan
  | .inf s, .num _ => .inf s
  | .num _, .inf t => .inf t
  | .num a, .num b => F64.round (a + b)

/-- `f64` multiplication. -/
def F64.mul : F64 → F64 → F64
  | .nan, _ => .nan
  | _, .nan => .nan
  | .inf s, .inf t => .inf (s == t)
  | .inf s, .num b => if b = 0 then .nan else .inf (s == decide (0 < b))
  | .num a, .inf t => if a = 0 then .nan else .inf (t == decide (0 < a))
  | .num a, .num b => F64.round (a * b)

/-- `f64` division. -/
def F64.div : F64 → F64 → F64
  | .nan, _ => .nan
  | _, .nan => .nan
  | .inf _, .inf _ => .nan
  | .inf s, .num b => .inf (s == decide (0 ≤ b))
  | .num _, .inf _ => .num 0
  | .num a, .num b =>
    if b = 0 then (if a = 0 then .nan else .inf (decide (0 < a)))
    else F64.round (a / b)

/-- Conversion `u64 as f64` (and more generally any unsigned integer to
`f64`), which rounds to nearest. -/
def F64.ofNat (n : ℕ) : F64 := F64.round (n : ℚ)

/-- Rust's saturating cast `as u64` from `f64`: truncation toward zero,
clamped to `[0, 2^64-1]`, with NaN mapped to 0. -/
def F64.toU64 : F64 → ℕ
  | .nan => 0
  | .inf true => 2 ^ 64 - 1
  | .inf false => 0
  | .num q => if q < 0 then 0 else min (ratFloorNat q) (2 ^ 64 - 1)

/-- Model of `f64::partial_cmp`: `none` exactly when a NaN is involved. -/
def F64.pcmp : F64 → F64 → Option Ordering
  | .nan, _ => none
  | _, .nan => none
  | .inf s, .inf t =>
    some (if s = t then .eq else if s then .gt else .lt)
  | .inf s, .num _ => some (if s then .gt else .lt)
  | .num _, .inf t => some (if t then .lt else .gt)
  | .num a, .num b => some (if a < b then .lt else if b < a then .gt else .eq)

theorem f64Bound_pos : (0:ℚ) < f64Bound := by
  rw [f64Bound]
  positivity

theorem F64.round_num_of_lt (q : ℚ) (h0 : 0 ≤ q) (h : f64round q < f64Bound) :
    F64.round q = .num (f64round q) := by
  rw [F64.round]
  have hnn : 0 ≤ f64round q := f64round_nonneg q h0
  have h2 : ¬ (f64Bound ≤ f64round q) := not_le.mpr h
  have h3 : ¬ (f64round q ≤ -f64Bound) := by
    intro hc
    have := f64Bound_pos
    linarith
  simp only [h2, h3, if_false]

/-! ## JSON documents

The envelope codec (`gix-gxf`) serializes with `serde_json`.  We model JSON
documents over byte lists (`ℕ` per byte), with the compact printing that
`serde_json::to_vec` emits and a recursive-descent parser for that compact
form.  Mutually inductive lists keep every recursion structural, so the
kernel can evaluate the codec on concrete inputs. -/

mutual
inductive Json where
  | num (n : ℕ)
  | str (s : List ℕ)
  | arr (xs : JsonList)
  | obj (fs : JsonFields)
deriving DecidableEq
inductive JsonList where
  | nil
  | cons (hd : Json) (tl : JsonList)
deriving DecidableEq
inductive JsonFields where
  | nil
  | cons (key : List ℕ) (val : Json) (tl : JsonFields)
deriving DecidableEq
end

/- Size of a JSON document (used as parser fuel in proofs). -/
mutual
def Json.size : Json → ℕ
  | .num _ => 1
  | .str _ => 1
  | .arr xs => 1 + xs.size
  | .obj fs => 1 + fs.size
def JsonList.size : JsonList → ℕ
  | .nil => 1
  | .cons x xs => 1 + x.size + xs.size
def JsonFields.size : JsonFields → ℕ
  | .nil => 1
  | .cons _ v fs => 1 + v.size + fs.size
end

/-- Little-endian decimal digits, fuelled so the recursion is structural. -/
def natDigitsAux : ℕ → ℕ → List ℕ
  | 0, _ => []
  | f + 1, n => if n = 0 then [] else n % 10 :: natDigitsAux f (n / 10)

/-- Decimal rendering of a natural number, as ASCII bytes. -/
def printNat (n : ℕ) : List ℕ :=
  if n = 0 then [48] else ((natDigitsAux n n).reverse.map (fun d => 48 + d))

/-- Escape one byte of a JSON string (quote and backslash; control bytes,
which `serde_json` would escape as well, are excluded by the plain-string
hypotheses used in the codec theorems). -/
def escByte (b : ℕ) : List ℕ :=
  if b = 34 then [92, 34]
  else if b = 92 then [92, 92]
  else [b]

def escapeStr : List ℕ → List ℕ
  | [] => []
  | b :: bs => escByte b ++ escapeStr bs

/-- Print a JSON string literal (quotes included). -/
def printStr (s : List ℕ) : List ℕ := 34 :: (escapeStr s ++ [34])

/- Compact JSON printing, as emitted by serde_json::to_vec. -/
mutual
def printJson : Json → List ℕ
  | .num n => printNat n
  | .str s => printStr s
  | .arr xs => 91 :: printArrElems xs
  | .obj fs => 123 :: printObjFields fs
def printArrElems : JsonList → List ℕ
  | .nil => [93]
  | .cons x .nil => printJson x ++ [93]
  | .cons x xs => printJson x ++ 44 :: printArrElems xs
def printObjFields : JsonFields → List ℕ
  | .nil => [125]
  | .cons k v .nil => printStr k ++ 58 :: (printJson v ++ [125])
  | .cons k v fs => printStr k ++ 58 :: (printJson v ++ 44 :: printObjFields fs)
end

/-- Parse a JSON string literal body (after the opening quote). -/
def parseStr : List ℕ → Option (List ℕ × List ℕ)
  | [] => none
  | c :: rest =>
    if c = 34 then some ([], rest)
    else if c = 92 then
      match rest with
      | [] => none
      | e :: rest2 =>
        if e = 34 ∨ e = 92 then (parseStr rest2).map (fun p => (e :: p.1, p.2)) else none
    else (parseStr rest).map (fun p => (c :: p.1, p.2))

/-- Greedily parse decimal digits with an accumulator. -/
def parseNumAux : List ℕ → ℕ → ℕ × List ℕ
  | [], acc => (acc, [])
  | c :: rest, acc =>
    if 48 ≤ c ∧ c ≤ 57 then parseNumAux rest (10 * acc + (c - 48)) else (acc, c :: rest)

/- Recursive-descent parser for compact JSON (no whitespace handling: the
model covers the serialization format the codec itself emits). -/
mutual
def parseVal : ℕ → List ℕ → Option (Json × List ℕ)
  | 0, _ => none
  | f + 1, bs =>
    match bs with
    | [] => none
    | c :: rest =>
      if c = 34 then (parseStr rest).map (fun p => (Json.str p.1, p.2))
      else if c = 91 then
        if rest.headD 0 = 93 then some (.arr .nil, rest.tail)
        else (parseArrElems f rest).map (fun p => (Json.arr p.1, p.2))
      else if c = 123 then
        if rest.headD 0 = 125 then some (.obj .nil, rest.tail)
        else (parseObjFields f rest).map (fun p => (Json.obj p.1, p.2))
      else if 48 ≤ c ∧ c ≤ 57 then
        let p := parseNumAux bs 0
        some (.num p.1, p.2)
      else none
def parseArrElems : ℕ → List ℕ → Option (JsonList × List ℕ)
  | 0, _ => none
  | f + 1, bs =>
    match parseVal f bs with
    | none => none
    | some (v, rest) =>
      if rest.headD 0 = 44 then
        (parseArrElems f rest.tail).map (fun p => (JsonList.cons v p.1, p.2))
      else if rest.headD 0 = 93 then some (.cons v .nil, rest.tail)
      else none
def parseObjFields : ℕ → List ℕ → Option (JsonFields × List ℕ)
  | 0, _ => none
  | f + 1, bs =>
    match bs with
    | [] => none
    | c :: r0 =>
      if c = 34 then
        match parseStr r0 with
        | none => none
        | some (key, r1) =>
          if r1.headD 0 = 58 then
            match parseVal f r1.tail with
            | none => none
            | some (v, r3) =>
              if r3.headD 0 = 44 then
                (parseObjFields f r3.tail).map
                  (fun p => (JsonFields.cons key v p.1, p.2))
              else if r3.headD 0 = 125 then some (.cons key v .nil, r3.tail)
              else none
          else none
      else none
end

/-- Parse a complete JSON document, requiring all input to be consumed
(as `serde_json::from_slice` does). -/
def parseJson (bs : List ℕ) : Option Json :=
  match parseVal (2 * bs.length + 1) bs with
  | some (j, []) => some j
  | _ => none

/-- Field lookup in a JSON object (first occurrence). -/
def JsonFields.lookup : JsonFields → List ℕ → Option Json
  | .nil, _ => none
  | .cons k v fs, key => if k = key then some v else fs.lookup key

/-! ## gix-gxf: envelope format (crates/gix-gxf/src/lib.rs)

Rust `String`s are modelled as Lean `String`s; the JSON byte rendering of a
string is faithful for ASCII text (the well-formedness hypotheses of the
codec theorems restrict to that range).  Error variants carry the data the
source formats into its message strings, not the rendered text. -/

def strToBytes (s : String) : List ℕ := s.toList.map Char.toNat

def bytesToStr (bs : List ℕ) : String := String.mk (bs.map Char.ofNat)

/-- GXF schema version constant (`GXF_VERSION`). -/
def GXF_VERSION : ℕ := 3

/-- GXF error type (`GxfError`). -/
inductive GxfError where
  | invalidVersion (expected actual : ℕ)
  | invalidJobId
  | invalidPayload
  | invalidMetadata
  | expired (expiresAt currentTime : ℕ)
  | invalidPrecision
  | invalidSequenceLength (len : ℕ)
  | serialization
  | deserialization
deriving DecidableEq

/-- Precision levels (`PrecisionLevel`), wire-encoded as uppercase strings. -/
inductive PrecisionLevel where
  | BF16
  | FP8
  | E5M2
  | INT8
deriving DecidableEq

/-- `PrecisionLevel::is_valid`: a `matches!` over the four (only) variants. -/
def PrecisionLevel.is_valid : PrecisionLevel → Bool
  | .BF16 => true
  | .FP8 => true
  | .E5M2 => true
  | .INT8 => true

/-- Wire name of a precision level. -/
def PrecisionLevel.wireName : PrecisionLevel → String
  | .BF16 => "BF16"
  | .FP8 => "FP8"
  | .E5M2 => "E5M2"
  | .INT8 => "INT8"

/-- Job identifier (`JobId`, a 16-byte array; the length and byte range are
tracked by well-formedness hypotheses). -/
structure JobId where
  bytes : List ℕ
deriving DecidableEq

/-- A GXF job (`GxfJob`). -/
structure GxfJob where
  job_id : JobId
  precision : PrecisionLevel
  kv_cache_seq_len : ℕ
  parameters : List (String × String)
deriving DecidableEq

/-- `GxfJob::validate`. -/
def GxfJob.validate (j : GxfJob) : Except GxfError Unit :=
  if ¬ j.precision.is_valid then .error .invalidPrecision
  else if j.kv_cache_seq_len = 0 then .error (.invalidSequenceLength j.kv_cache_seq_len)
  else .ok ()

/-- GXF metadata (`GxfMetadata`). -/
structure GxfMetadata where
  schema_version : ℕ
  priority : ℕ
  created_at : ℕ
  expires_at : Option ℕ
  source_slp : Option String
  target_lane : Option String
  additional_fields : List (String × String)
deriving DecidableEq

/-- `GxfMetadata::validate`.  The source reads the current time from the
system clock; the model passes it as `now`. -/
def GxfMetadata.validate (m : GxfMetadata) (now : ℕ) : Except GxfError Unit :=
  if m.schema_version ≠ GXF_VERSION then
    .error (.invalidVersion GXF_VERSION m.schema_version)
  else
    match m.expires_at with
    | none => .ok ()
    | some e =>
      if e ≤ now then .error (.expired e now)
      else if e ≤ m.created_at then .error .invalidMetadata
      else .ok ()

/-- `GxfMetadata::is_expired` (with the clock passed as `now`). -/
def GxfMetadata.is_expired (m : GxfMetadata) (now : ℕ) : Bool :=
  match m.expires_at with
  | some e => e ≤ now
  | none => false

/-- A GXF envelope (`GxfEnvelope`): metadata plus the serialized job bytes. -/
structure GxfEnvelope where
  meta : GxfMetadata
  payload : List ℕ
deriving DecidableEq

/-- serde data-model encoding of a `GxfJob` (derived `Serialize`, field
declaration order, `parameters` in iteration order). -/
def encodeJob (j : GxfJob) : Json :=
  .obj (.cons (strToBytes "job_id")
          (.arr (j.job_id.bytes.foldr (fun b acc => JsonList.cons (.num b) acc) .nil))
        (.cons (strToBytes "precision") (.str (strToBytes j.precision.wireName))
          (.cons (strToBytes "kv_cache_seq_len") (.num j.kv_cache_seq_len)
            (.cons (strToBytes "parameters")
              (.obj (j.parameters.foldr
                 (fun (kv : String × String) acc => JsonFields.cons (strToBytes kv.1) (.str (strToBytes kv.2)) acc)
                 .nil))
              .nil))))

/-- Decode a JSON array of at most-255 numbers into bytes. -/
def decodeByteArr : JsonList → Option (List ℕ)
  | .nil => some []
  | .cons (.num b) tl => if b < 256 then (decodeByteArr tl).map (b :: ·) else none
  | .cons _ _ => none

/-- Decode the wire name of a precision level. -/
def decodePrecision (s : List ℕ) : Option PrecisionLevel :=
  if s = strToBytes "BF16" then some .BF16
  else if s = strToBytes "FP8" then some .FP8
  else if s = strToBytes "E5M2" then some .E5M2
  else if s = strToBytes "INT8" then some .INT8
  else none

/-- Decode a JSON object of string values into a string-to-string map. -/
def decodeStrMap : JsonFields → Option (List (String × String))
  | .nil => some []
  | .cons k (.str v) tl => (decodeStrMap tl).map ((bytesToStr k, bytesToStr v) :: ·)
  | .cons _ _ _ => none

/-- serde data-model decoding of a `GxfJob` (derived `Deserialize`:
`job_id` must be exactly 16 bytes, `kv_cache_seq_len` must fit in `u32`,
a missing `parameters` field defaults to the empty map). -/
def decodeJob (j : Json) : Except GxfError GxfJob :=
  match j with
  | .obj fs =>
    match fs.lookup (strToBytes "job_id") with
    | some (.arr a) =>
      match decodeByteArr a with
      | some bs =>
        if bs.length = 16 then
          match fs.lookup (strToBytes "precision") with
          | some (.str p) =>
            match decodePrecision p with
            | some prec =>
              match fs.lookup (strToBytes "kv_cache_seq_len") with
              | some (.num n) =>
                if n < 2 ^ 32 then
                  match fs.lookup (strToBytes "parameters") with
                  | none => .ok ⟨⟨bs⟩, prec, n, []⟩
                  | some (.obj pfs) =>
                    match decodeStrMap pfs with
                    | some ps => .ok ⟨⟨bs⟩, prec, n, ps⟩
                    | none => .error .deserialization
                  | some _ => .error .deserialization
                else .error .deserialization
              | _ => .error .deserialization
            | none => .error .deserialization
          | _ => .error .deserialization
        else .error .deserialization
      | none => .error .deserialization
    | _ => .error .deserialization
  | _ => .error .deserialization

/-- `GxfEnvelope::deserialize_job`: parse the payload bytes as JSON and
decode a `GxfJob`. -/
def GxfEnvelope.deserialize_job (e : GxfEnvelope) : Except GxfError GxfJob :=
  match parseJson e.payload with
  | some j => decodeJob j
  | none => .error .deserialization

/-- `GxfEnvelope::validate`: metadata, payload non-emptiness, then job
deserialization and validation. -/
def GxfEnvelope.validate (e : GxfEnvelope) (now : ℕ) : Except GxfError Unit := do
  e.meta.validate now
  if e.payload.isEmpty then
    throw (.invalidPayload)
  else
    let job ← e.deserialize_job
    job.validate

/-- serde data-model encoding of a `GxfMetadata` (derived `Serialize`;
`None` optionals are skipped via `skip_serializing_if`). -/
def encodeMeta (m : GxfMetadata) : Json :=
  .obj (.cons (strToBytes "schema_version") (.num m.schema_version)
    (.cons (strToBytes "priority") (.num m.priority)
      (.cons (strToBytes "created_at") (.num m.created_at)
        ((match m.expires_at with
          | some e => fun rest => JsonFields.cons (strToBytes "expires_at") (.num e) rest
          | none => id)
        ((match m.source_slp with
          | some s => fun rest => JsonFields.cons (strToBytes "source_slp") (.str (strToBytes s)) rest
          | none => id)
        ((match m.target_lane with
          | some t => fun rest => JsonFields.cons (strToBytes "target_lane") (.str (strToBytes t)) rest
          | none => id)
        (.cons (strToBytes "additional_fields")
          (.obj (m.additional_fields.foldr
             (fun (kv : String × String) acc => JsonFields.cons (strToBytes kv.1) (.str (strToBytes kv.2)) acc)
             .nil))
          .nil)))))))

/-- serde data-model encoding of a `GxfEnvelope`. -/
def encodeEnvelope (e : GxfEnvelope) : Json :=
  .obj (.cons (strToBytes "meta") (encodeMeta e.meta)
    (.cons (strToBytes "payload")
      (.arr (e.payload.foldr (fun b acc => JsonList.cons (.num b) acc) .nil))
      .nil))

/-- serde data-model decoding of a `GxfMetadata` (missing `Option` fields
decode to `None`; a missing `additional_fields` defaults to empty;
`schema_version` and `priority` must fit in `u8`, timestamps in `u64`). -/
def decodeMeta (j : Json) : Except GxfError GxfMetadata :=
  match j with
  | .obj fs =>
    match fs.lookup (strToBytes "schema_version") with
    | some (.num v) =>
      if v < 2 ^ 8 then
        match fs.lookup (strToBytes "priority") with
        | some (.num p) =>
          if p < 2 ^ 8 then
            match fs.lookup (strToBytes "created_at") with
            | some (.num c) =>
              if c < 2 ^ 64 then
                match
                  (match fs.lookup (strToBytes "expires_at") with
                   | none => some none
                   | some (.num e) => if e < 2 ^ 64 then some (some e) else none
                   | some _ => none) with
                | none => .error .deserialization
                | some expOpt =>
                  match
                    (match fs.lookup (strToBytes "source_slp") with
                     | none => some none
                     | some (.str s) => some (some (bytesToStr s))
                     | some _ => none) with
                  | none => .error .deserialization
                  | some slpOpt =>
                    match
                      (match fs.lookup (strToBytes "target_lane") with
                       | none => some none
                       | some (.str t) => some (some (bytesToStr t))
                       | some _ => none) with
                    | none => .error .deserialization
                    | some laneOpt =>
                      match fs.lookup (strToBytes "additional_fields") with
                      | none => .ok ⟨v, p, c, expOpt, slpOpt, laneOpt, []⟩
                      | some (.obj afs) =>
                        match decodeStrMap afs with
                        | some af => .ok ⟨v, p, c, expOpt, slpOpt, laneOpt, af⟩
                        | none => .error .deserialization
                      | some _ => .error .deserialization
              else .error .deserialization
            | _ => .error .deserialization
          else .error .deserialization
        | _ => .error .deserialization
      else .error .deserialization
    | _ => .error .deserialization
  | _ => .error .deserialization

/-- serde data-model decoding of a `GxfEnvelope`. -/
def decodeEnvelope (j : Json) : Except GxfError GxfEnvelope :=
  match j with
  | .obj fs =>
    match fs.lookup (strToBytes "meta") with
    | some mj =>
      match decodeMeta mj with
      | .error err => .error err
      | .ok m =>
        match fs.lookup (strToBytes "payload") with
        | some (.arr a) =>
          match decodeByteArr a with
          | some bs => .ok ⟨m, bs⟩
          | none => .error .deserialization
        | _ => .error .deserialization
    | none => .error .deserialization
  | _ => .error .deserialization

/-- `GxfEnvelope::to_json` (the byte rendering of the serde data model). -/
def GxfEnvelope.to_json (e : GxfEnvelope) : List ℕ := printJson (encodeEnvelope e)

/-- `GxfEnvelope::from_json`. -/
def GxfEnvelope.from_json (bs : List ℕ) : Except GxfError GxfEnvelope :=
  match parseJson bs with
  | some j => decodeEnvelope j
  | none => .error .deserialization

instance exceptDecEq {ε α : Type} [DecidableEq ε] [DecidableEq α] :
    DecidableEq (Except ε α) := fun x y =>
  match x, y with
  | .ok a, .ok b =>
    if h : a = b then .isTrue (congrArg Except.ok h)
    else .isFalse (fun hc => h (Except.ok.inj hc))
  | .error a, .error b =>
    if h : a = b then .isTrue (congrArg Except.error h)
    else .isFalse (fun hc => h (Except.error.inj hc))
  | .ok _, .error _ => .isFalse (fun hc => Except.noConfusion hc)
  | .error _, .ok _ => .isFalse (fun hc => Except.noConfusion hc)

/-! ## gcam-node: auction engine (services/gcam-node/src/lib.rs)

Machine-integer arithmetic is modelled with explicit wrap-around
(`% 2^32` / `% 2^64`); the type-level bounds of Rust fields appear as
well-formedness hypotheses in the theorems that need them.  The persistent
sled store is out of scope of the claims; the engine state is the in-memory
working set (providers, routes, stats), which the source keeps synced with
the store. -/

def u64wrap (n : ℕ) : ℕ := n % 2 ^ 64

def u32wrap (n : ℕ) : ℕ := n % 2 ^ 32

/-- `gix_common::GixError`. -/
inductive GixError where
  | cryptoFailure
  | protocol (msg : String)
  | internalError (msg : String)
deriving DecidableEq

/-- A compute provider (`ComputeProvider`). -/
structure ComputeProvider where
  slp_id : String
  supported_precisions : List PrecisionLevel
  base_price : ℕ
  capacity : ℕ
  utilization : ℕ
  region : String
deriving DecidableEq

/-- `ComputeProvider::can_handle`. -/
def ComputeProvider.can_handle (p : ComputeProvider) (job : GxfJob) : Bool :=
  if ¬ p.supported_precisions.contains job.precision then false
  else if p.capacity ≤ p.utilization then false
  else true

/-- The `f64` literal written for each precision multiplier (`1.2` denotes
the binary64 value nearest to 6/5; the other literals are exact). -/
def PrecisionLevel.multiplier : PrecisionLevel → ℚ
  | .INT8 => 1
  | .E5M2 => f64round (12 / 10)
  | .FP8 => 3 / 2
  | .BF16 => 2

/-- `ComputeProvider::calculate_price`: integer accumulation in `u64`,
then two `f64` scalings each truncated back to `u64` by an `as u64` cast. -/
def ComputeProvider.calculate_price (p : ComputeProvider) (job : GxfJob) : ℕ :=
  let price0 : ℕ := u64wrap (p.base_price + u64wrap (job.kv_cache_seq_len * 10))
  let price1 : ℕ := (F64.mul (F64.ofNat price0) (.num job.precision.multiplier)).toU64
  let ratio := F64.div (F64.ofNat p.utilization) (F64.ofNat p.capacity)
  let utilization_factor := F64.add (.num 1) (F64.mul ratio (.num (1 / 2)))
  (F64.mul (F64.ofNat price1) utilization_factor).toU64

/-- A route (`Route`). -/
structure Route where
  id : String
  lane_id : ℕ
  path : List String
  latency_ms : ℕ
  cost : ℕ
deriving DecidableEq

/-- `Route::score`: `latency_ms as f64 / 1000.0 + cost as f64 / 1000000.0`. -/
def Route.score (r : Route) : F64 :=
  let latency_score := F64.div (F64.ofNat r.latency_ms) (.num 1000)
  let cost_score := F64.div (F64.ofNat r.cost) (.num 1000000)
  F64.add latency_score cost_score

/-- Auction statistics (`AuctionStats`); the two hash maps are modelled as
total functions with default value 0. -/
structure AuctionStats where
  total_auctions : ℕ
  total_matches : ℕ
  total_unmatched : ℕ
  total_volume : ℕ
  matches_by_precision : PrecisionLevel → ℕ
  matches_by_lane : ℕ → ℕ

/-- `AuctionStats::default()`: all counters zero, empty maps. -/
def AuctionStats.default : AuctionStats :=
  ⟨0, 0, 0, 0, fun _ => 0, fun _ => 0⟩

/-- The auction engine's in-memory working set. -/
structure EngineState where
  providers : List ComputeProvider
  routes : List Route
  stats : AuctionStats

/-- An auction match result (`AuctionMatch`). -/
structure AuctionMatch where
  job_id : JobId
  slp_id : String
  lane_id : ℕ
  price : ℕ
  route : List String
deriving DecidableEq

/-- Stable insertion into a price-sorted provider list (insert after equal
keys, preserving the original order of ties, as Rust's stable
`sort_by_key` does). -/
def insertByPrice (job : GxfJob) (p : ComputeProvider) :
    List ComputeProvider → List ComputeProvider
  | [] => [p]
  | q :: qs =>
    if q.calculate_price job ≤ p.calculate_price job then q :: insertByPrice job p qs
    else p :: q :: qs

/-- Stable sort of providers by ascending price (`matches.sort_by_key`). -/
def sortByPrice (job : GxfJob) : List ComputeProvider → List ComputeProvider
  | [] => []
  | p :: ps => insertByPrice job p (sortByPrice job ps)

/-- `AuctionEngine::match_job`: filter providers able to handle the job,
sort ascending by price, `None` if the result is empty. -/
def EngineState.match_job (e : EngineState) (job : GxfJob) :
    Option (List ComputeProvider) :=
  let ms := sortByPrice job (e.providers.filter (fun p => p.can_handle job))
  if ms.isEmpty then none else some ms

/-- Rust `Iterator::min_by` over routes compared by score: the accumulator
is kept unless strictly greater, so the first of several equal minima wins.
The source unwraps `partial_cmp`; the model's default (`Ordering.eq`) on a
`none` comparison is provably unreachable because route scores are never
NaN (see the C10 theorem). -/
def minByScore : List Route → Option Route
  | [] => none
  | r :: rs =>
    some (rs.foldl (fun acc y =>
      if ((acc.score.pcmp y.score).getD .eq) = .gt then y else acc) r)

/-- `AuctionEngine::select_route`. -/
def EngineState.select_route (e : EngineState) (priority : ℕ) : Option Route :=
  let filtered :=
    if 128 ≤ priority then e.routes.filter (fun r => r.lane_id = 0)
    else e.routes.filter (fun r => r.lane_id = 1)
  if filtered.isEmpty then minByScore e.routes
  else minByScore filtered

/-- `providers.iter_mut().find(|p| p.slp_id == ...)` followed by
`p.utilization += 1`: bump the first provider with the given id. -/
def bumpFirstUtilization : List ComputeProvider → String → List ComputeProvider
  | [], _ => []
  | p :: ps, sid =>
    if p.slp_id = sid then { p with utilization := u32wrap (p.utilization + 1) } :: ps
    else p :: bumpFirstUtilization ps sid

/-- The stats delta of a successful auction commit (the `Update stats`
block of `run_auction`). -/
def commitStats (stats : AuctionStats) (job : GxfJob) (route : Route) (price : ℕ) :
    AuctionStats :=
  { total_auctions := u64wrap (stats.total_auctions + 1)
    total_matches := u64wrap (stats.total_matches + 1)
    total_unmatched := stats.total_unmatched
    total_volume := u64wrap (stats.total_volume + price)
    matches_by_precision := fun q =>
      if q = job.precision then u64wrap (stats.matches_by_precision q + 1)
      else stats.matches_by_precision q
    matches_by_lane := fun l =>
      if l = route.lane_id then u64wrap (stats.matches_by_lane l + 1)
      else stats.matches_by_lane l }

/-- `AuctionEngine::run_auction`: match, price, route, then commit stats
and provider utilization.  Storage persistence (a sled write-through that
only fails on I/O errors) is outside the modelled state. -/
def EngineState.run_auction (e : EngineState) (job : GxfJob) (priority : ℕ) :
    Except GixError AuctionMatch × EngineState :=
  match e.match_job job with
  | none => (.error (.internalError "No matching providers found"), e)
  | some [] => (.error (.internalError "No providers can handle this job"), e)
  | some (provider :: _) =>
    let price := provider.calculate_price job
    match e.select_route priority with
    | none => (.error (.internalError "No route available"), e)
    | some route =>
      (.ok ⟨job.job_id, provider.slp_id, route.lane_id, price, route.path⟩,
       { e with stats := commitStats e.stats job route price,
                providers := bumpFirstUtilization e.providers provider.slp_id })

/-- Seed provider set written on first start (`load_providers`). -/
def seedProviders : List ComputeProvider :=
  [⟨"slp-us-east-1", [.BF16, .FP8, .E5M2, .INT8], 1000, 100, 30, "US"⟩,
   ⟨"slp-eu-west-1", [.BF16, .FP8, .INT8], 1200, 80, 20, "EU"⟩]

/-- Seed route set written on first start (`load_routes`). -/
def seedRoutes : List Route :=
  [⟨"route-flash-1", 0, ["node-1", "node-2"], 50, 100⟩,
   ⟨"route-deep-1", 1, ["node-3", "node-4", "node-5"], 150, 80⟩]

/-- `process_envelope` in gcam-node: validate, expiry check, deserialize,
job validation, then the auction. -/
inductive AuctionFailure where
  | validation (e : GxfError)
  | envelopeExpired
  | deserialize (e : GxfError)
  | jobValidation (e : GxfError)
  | auction (e : GixError)
deriving DecidableEq

def auctionProcessEnvelope (e : EngineState) (env : GxfEnvelope) (now : ℕ) :
    Except AuctionFailure AuctionMatch × EngineState :=
  match env.validate now with
  | .error err => (.error (.validation err), e)
  | .ok () =>
    if env.meta.is_expired now then (.error .envelopeExpired, e)
    else
      match env.deserialize_job with
      | .error err => (.error (.deserialize err), e)
      | .ok job =>
        match job.validate with
        | .error err => (.error (.jobValidation err), e)
        | .ok () =>
          match e.run_auction job env.meta.priority with
          | (.ok m, e') => (.ok m, e')
          | (.error err, e') => (.error (.auction err), e')

/-! ## ajr-router: router (services/ajr-router/src/lib.rs) -/

/-- Per-lane state (`LaneInfo`). -/
structure LaneInfo where
  id : ℕ
  name : String
  capacity : ℕ
  active_jobs : ℕ
deriving DecidableEq

/-- Router state (`RouterState`); the per-lane stats map is modelled as a
total function with default 0. -/
structure RouterState where
  lanes : List LaneInfo
  stats : ℕ → ℕ
  total_routed : ℕ

/-- `RouterState::new`: the two default lanes, empty stats. -/
def RouterState.new : RouterState :=
  ⟨[⟨0, "Flash", 100, 0⟩, ⟨1, "Deep", 50, 0⟩], fun _ => 0, 0⟩

/-- `RouterState::select_lane`. -/
def RouterState.select_lane (s : RouterState) (priority : ℕ) : Except GixError ℕ :=
  let lane_index := if 128 ≤ priority then 0 else 1
  match s.lanes.get? lane_index with
  | none => .error (.internalError "Invalid lane index")
  | some lane =>
    if lane.capacity ≤ lane.active_jobs then
      let fallback_index := if lane_index = 0 then 1 else 0
      match s.lanes.get? fallback_index with
      | none => .error (.internalError "All lanes at capacity")
      | some fallback_lane =>
        if fallback_lane.active_jobs < fallback_lane.capacity then .ok fallback_lane.id
        else .error (.internalError "All lanes at capacity")
    else .ok lane.id

/-- Increment `active_jobs` of the first lane with the given id
(`lanes.iter().find(|l| l.id == lane_id)` followed by `*active += 1`). -/
def bumpFirstLane : List LaneInfo → ℕ → List LaneInfo
  | [], _ => []
  | l :: ls, lid =>
    if l.id = lid then { l with active_jobs := u32wrap (l.active_jobs + 1) } :: ls
    else l :: bumpFirstLane ls lid

/-- `RouterState::route_envelope`: commit the per-lane stat, the global
counter and the lane's active-job count.  (The source returns `Ok(())`
unconditionally; the model returns the updated state.) -/
def RouterState.route_envelope (s : RouterState) (lane_id : ℕ) : RouterState :=
  { lanes := bumpFirstLane s.lanes lane_id
    stats := fun l => if l = lane_id then u64wrap (s.stats l + 1) else s.stats l
    total_routed := u64wrap (s.total_routed + 1) }

/-- Failure cases of the router's `process_envelope` (the source wraps each
in an `anyhow` message). -/
inductive RouterFailure where
  | validation (e : GxfError)
  | envelopeExpired
  | deserialize (e : GxfError)
  | jobValidation (e : GxfError)
  | laneSelection (e : GixError)
deriving DecidableEq

/-- `process_envelope` in ajr-router. -/
def routerProcessEnvelope (s : RouterState) (env : GxfEnvelope) (now : ℕ) :
    Except RouterFailure ℕ × RouterState :=
  match env.validate now with
  | .error err => (.error (.validation err), s)
  | .ok () =>
    if env.meta.is_expired now then (.error .envelopeExpired, s)
    else
      match env.deserialize_job with
      | .error err => (.error (.deserialize err), s)
      | .ok job =>
        match job.validate with
        | .error err => (.error (.jobValidation err), s)
        | .ok () =>
          match s.select_lane env.meta.priority with
          | .error err => (.error (.laneSelection err), s)
          | .ok lane_id => (.ok lane_id, s.route_envelope lane_id)

/-! ## gsee-runtime: execution runtime (services/gsee-runtime/src/lib.rs)

Compliance-error variants carry the data the source renders into message
strings.  The Blake3 output hash is an external crypto collaborator; the
runtime is parameterized by the hash function. -/

/-- Shape requirements (`ShapeRequirements`). -/
structure ShapeRequirements where
  max_sequence_length : ℕ
  max_batch_size : ℕ
  required_dimensions : List ℕ
deriving DecidableEq

/-- `ShapeRequirements::default`. -/
def ShapeRequirements.default : ShapeRequirements := ⟨8192, 32, []⟩

/-- Compliance errors (`ComplianceError`); each variant carries the data
formatted into the source's message string. -/
inductive ComplianceError where
  | precisionViolation (p : PrecisionLevel)
  | shapeViolation (value limit : ℕ)
  | residencyViolation (details : String)
deriving DecidableEq

/-- Rust `str::parse::<u32>` restricted to plain decimal digit strings
(the model omits the optional leading `+` sign, which no modelled input
uses). -/
def parseU32 (s : String) : Option ℕ :=
  let cs := s.toList
  if cs.isEmpty then none
  else if cs.all (fun c => decide (48 ≤ c.toNat) && decide (c.toNat ≤ 57)) then
    let n := cs.foldl (fun a c => 10 * a + (c.toNat - 48)) 0
    if n < 2 ^ 32 then some n else none
  else none

/-- `ShapeRequirements::validate`: sequence-length bound, then the
`batch_size` parameter when it parses as `u32` (unparsable values are
ignored). -/
def ShapeRequirements.validate (sr : ShapeRequirements) (job : GxfJob) :
    Except ComplianceError Unit :=
  if sr.max_sequence_length < job.kv_cache_seq_len then
    .error (.shapeViolation job.kv_cache_seq_len sr.max_sequence_length)
  else
    match job.parameters.lookup "batch_size" with
    | some bs =>
      match parseU32 bs with
      | some b =>
        if sr.max_batch_size < b then .error (.shapeViolation b sr.max_batch_size)
        else .ok ()
      | none => .ok ()
    | none => .ok ()

/-- Residency requirements (`ResidencyRequirements`). -/
structure ResidencyRequirements where
  allowed_regions : List String
  required_residency : Option String
deriving DecidableEq

/-- `ResidencyRequirements::default`. -/
def ResidencyRequirements.default : ResidencyRequirements := ⟨["US", "EU"], none⟩

/-- `ResidencyRequirements::validate`: region allow-list, then the required
residency tag when one is configured. -/
def ResidencyRequirements.validate (rr : ResidencyRequirements) (job : GxfJob) :
    Except ComplianceError Unit :=
  let step2 : Except ComplianceError Unit :=
    match rr.required_residency with
    | some required =>
      match job.parameters.lookup "residency" with
      | some res =>
        if res ≠ required then .error (.residencyViolation required) else .ok ()
      | none => .error (.residencyViolation required)
    | none => .ok ()
  match job.parameters.lookup "region" with
  | some region =>
    if ¬ rr.allowed_regions.contains region then .error (.residencyViolation region)
    else step2
  | none => step2

/-- Runtime policy state (`RuntimeState`, minus the stats cell, which the
model threads explicitly). -/
structure RuntimeState where
  supported_precisions : List PrecisionLevel
  shape_requirements : ShapeRequirements
  residency_requirements : ResidencyRequirements
deriving DecidableEq

/-- `RuntimeState::new`. -/
def RuntimeState.new : RuntimeState :=
  ⟨[.BF16, .FP8, .E5M2, .INT8], .default, .default⟩

/-- Execution statistics (`ExecutionStats`). -/
structure ExecutionStats where
  total_executed : ℕ
  total_completed : ℕ
  total_failed : ℕ
  total_rejected : ℕ
  jobs_by_precision : PrecisionLevel → ℕ

/-- `ExecutionStats::default()`. -/
def ExecutionStats.default : ExecutionStats := ⟨0, 0, 0, 0, fun _ => 0⟩

/-- `RuntimeState::check_precision`. -/
def RuntimeState.check_precision (rt : RuntimeState) (job : GxfJob) :
    Except ComplianceError Unit :=
  if ¬ rt.supported_precisions.contains job.precision then
    .error (.precisionViolation job.precision)
  else if ¬ job.precision.is_valid then .error (.precisionViolation job.precision)
  else .ok ()

/-- `RuntimeState::check_shape`. -/
def RuntimeState.check_shape (rt : RuntimeState) (job : GxfJob) :
    Except ComplianceError Unit :=
  rt.shape_requirements.validate job

/-- `RuntimeState::check_residency`. -/
def RuntimeState.check_residency (rt : RuntimeState) (job : GxfJob) :
    Except ComplianceError Unit :=
  rt.residency_requirements.validate job

/-- `RuntimeState::check_compliance`: precision, then shape, then
residency; the first failure short-circuits. -/
def RuntimeState.check_compliance (rt : RuntimeState) (job : GxfJob) :
    Except ComplianceError Unit := do
  rt.check_precision job
  rt.check_shape job
  rt.check_residency job

/-- Execution status (`ExecutionStatus`). -/
inductive ExecutionStatus where
  | completed
  | failed (reason : String)
  | rejected (reason : String)
deriving DecidableEq

/-- Execution result (`ExecutionResult`). -/
structure ExecutionResult where
  job_id : JobId
  status : ExecutionStatus
  duration_ms : ℕ
  output_hash : List ℕ
deriving DecidableEq

/-- Ceiling of a nonnegative rational, kernel-computable. -/
def ratCeilNat (q : ℚ) : ℕ :=
  if (ratFloorNat q : ℚ) = q then ratFloorNat q else ratFloorNat q + 1

/-- Rust's saturating cast `as u64` applied to `f64::ceil`. -/
def F64.ceilToU64 : F64 → ℕ
  | .nan => 0
  | .inf true => 2 ^ 64 - 1
  | .inf false => 0
  | .num q => if q ≤ 0 then 0 else min (ratCeilNat q) (2 ^ 64 - 1)

/-- `RuntimeState::simulate_execution`: the simulated delay is
`ceil(kv_cache_seq_len / 1000) + 10` milliseconds; the wall-clock elapsed
time reported in `duration_ms` is modelled as the requested delay; the
output hash is Blake3 of the job-id bytes (`hash` parameter); the status
is always `Completed`. -/
def RuntimeState.simulate_execution (hash : List ℕ → List ℕ) (job : GxfJob) :
    ExecutionResult :=
  let duration_ms :=
    u64wrap ((F64.div (F64.ofNat job.kv_cache_seq_len) (.num 1000)).ceilToU64 + 10)
  ⟨job.job_id, .completed, duration_ms, hash job.job_id.bytes⟩

/-- `RuntimeState::execute_job`: compliance gate, execute-counter bump,
simulated execution, outcome counter. -/
def RuntimeState.execute_job (rt : RuntimeState) (hash : List ℕ → List ℕ)
    (stats : ExecutionStats) (job : GxfJob) :
    Except ComplianceError ExecutionResult × ExecutionStats :=
  match rt.check_compliance job with
  | .error e => (.error e, stats)
  | .ok () =>
    let stats1 := { stats with
      total_executed := u64wrap (stats.total_executed + 1)
      jobs_by_precision := fun p =>
        if p = job.precision then u64wrap (stats.jobs_by_precision p + 1)
        else stats.jobs_by_precision p }
    let result := RuntimeState.simulate_execution hash job
    let stats2 :=
      match result.status with
      | .completed => { stats1 with total_completed := u64wrap (stats1.total_completed + 1) }
      | .failed _ => { stats1 with total_failed := u64wrap (stats1.total_failed + 1) }
      | .rejected _ => { stats1 with total_rejected := u64wrap (stats1.total_rejected + 1) }
    (.ok result, stats2)

/-- Failure cases of the runtime's `process_envelope`. -/
inductive RuntimeFailure where
  | validation (e : GxfError)
  | envelopeExpired
  | deserialize (e : GxfError)
  | jobValidation (e : GxfError)
  | compliance (e : ComplianceError)
deriving DecidableEq

/-- `process_envelope` in gsee-runtime. -/
def runtimeProcessEnvelope (rt : RuntimeState) (hash : List ℕ → List ℕ)
    (stats : ExecutionStats) (env : GxfEnvelope) (now : ℕ) :
    Except RuntimeFailure ExecutionResult × ExecutionStats :=
  match env.validate now with
  | .error err => (.error (.validation err), stats)
  | .ok () =>
    if env.meta.is_expired now then (.error .envelopeExpired, stats)
    else
      match env.deserialize_job with
      | .error err => (.error (.deserialize err), stats)
      | .ok job =>
        match job.validate with
        | .error err => (.error (.jobValidation err), stats)
        | .ok () =>
          match rt.execute_job hash stats job with
          | (.ok r, stats') => (.ok r, stats')
          | (.error e, stats') => (.error (.compliance e), stats')

/-! ## Shared lemmas about the auction engine -/

theorem mem_insertByPrice {job : GxfJob} {p x : ComputeProvider} :
    ∀ {l : List ComputeProvider}, x ∈ insertByPrice job p l → x = p ∨ x ∈ l := by
  intro l
  induction l with
  | nil => intro h; simpa [insertByPrice] using h
  | cons q qs ih =>
    intro h
    rw [insertByPrice] at h
    split at h
    · rcases List.mem_cons.mp h with h1 | h2
      · right; exact List.mem_cons.mpr (Or.inl h1)
      · rcases ih h2 with h3 | h4
        · left; exact h3
        · right; exact List.mem_cons.mpr (Or.inr h4)
    · rcases List.mem_cons.mp h with h1 | h2
      · left; exact h1
      · right; exact h2

theorem mem_sortByPrice {job : GxfJob} {x : ComputeProvider} :
    ∀ {l : List ComputeProvider}, x ∈ sortByPrice job l → x ∈ l := by
  intro l
  induction l with
  | nil => intro h; simpa [sortByPrice] using h
  | cons p ps ih =>
    intro h
    rw [sortByPrice] at h
    rcases mem_insertByPrice h with h1 | h2
    · exact List.mem_cons.mpr (Or.inl h1)
    · exact List.mem_cons.mpr (Or.inr (ih h2))

theorem minByScore_isSome {l : List Route} (h : l ≠ []) :
    ∃ r, minByScore l = some r := by
  cases l with
  | nil => exact absurd rfl h
  | cons x xs => exact ⟨_, rfl⟩

theorem select_route_isSome (e : EngineState) (priority : ℕ) (h : e.routes ≠ []) :
    ∃ r, e.select_route priority = some r := by
  rw [EngineState.select_route]
  set filtered :=
    if 128 ≤ priority then e.routes.filter (fun r => r.lane_id = 0)
    else e.routes.filter (fun r => r.lane_id = 1) with hf
  by_cases hemp : filtered.isEmpty
  · simp only [hemp, if_true]
    exact minByScore_isSome h
  · simp only [hemp, if_false]
    apply minByScore_isSome
    intro hc
    rw [hc] at hemp
    exact hemp rfl

/-- Case analysis of `run_auction`: either it fails and leaves the state
unchanged, or it succeeds with the cheapest candidate and a selected route
and commits exactly the stats delta and one utilization bump. -/
theorem run_auction_cases (e : EngineState) (job : GxfJob) (priority : ℕ) :
    (∃ err, e.run_auction job priority = (.error err, e)) ∨
    (∃ provider rest route,
      e.match_job job = some (provider :: rest) ∧
      e.select_route priority = some route ∧
      e.run_auction job priority =
        (.ok ⟨job.job_id, provider.slp_id, route.lane_id,
              provider.calculate_price job, route.path⟩,
         { e with stats := commitStats e.stats job route (provider.calculate_price job),
                  providers := bumpFirstUtilization e.providers provider.slp_id })) := by
  rw [EngineState.run_auction]
  cases hm : e.match_job job with
  | none => left; exact ⟨_, rfl⟩
  | some ms =>
    cases ms with
    | nil => left; exact ⟨_, rfl⟩
    | cons provider rest =>
      cases hr : e.select_route priority with
      | none => left; exact ⟨_, rfl⟩
      | some route =>
        right
        exact ⟨provider, rest, route, rfl, rfl, rfl⟩

/-- A successful `run_auction` matches a provider from the pool that can
handle the job (so in particular one with spare capacity). -/
theorem match_head_can_handle {e : EngineState} {job : GxfJob}
    {provider : ComputeProvider} {rest : List ComputeProvider}
    (hm : e.match_job job = some (provider :: rest)) :
    provider ∈ e.providers ∧ provider.can_handle job = true := by
  rw [EngineState.match_job] at hm
  split at hm
  · exact absurd hm (by simp)
  · have hmem : provider ∈ sortByPrice job (e.providers.filter (fun p => p.can_handle job)) := by
      rw [Option.some.inj hm]
      exact List.mem_cons_self _ _
    have := mem_sortByPrice hmem
    exact ⟨(List.mem_filter.mp this).1, (List.mem_filter.mp this).2⟩

theorem can_handle_spec {p : ComputeProvider} {job : GxfJob}
    (h : p.can_handle job = true) :
    p.supported_precisions.contains job.precision = true ∧ p.utilization < p.capacity := by
  rw [ComputeProvider.can_handle] at h
  split at h
  · exact absurd h (by simp)
  · split at h
    · exact absurd h (by simp)
    · rename_i hcon hcap
      constructor
      · exact not_not.mp hcon
      · omega

/-! ## Claim C1: auction pricing on the S3 scenario -/

/-- The S3 job: precision BF16, `kv_cache_seq_len = 1024`. -/
def jobS3 : GxfJob := ⟨⟨List.replicate 16 0⟩, .BF16, 1024, []⟩

/-- The S3 provider: `base_price = 1000`, `capacity = 100`,
`utilization = 30`, supports BF16. -/
def providerS3 : ComputeProvider := ⟨"slp-test-1", [.BF16], 1000, 100, 30, "US"⟩

/-- C1 counterexample: with the S3 provider as the sole candidate and the
S3 job, `run_auction` returns price 25851, not the claimed 25852.  In
`f64`, `1.0 + (30.0/100.0)*0.5` is `1.1499999999999999111…` (just below
`1.15`), so `22480.0 * factor = 25851.999999999996…`, and the `as u64`
cast truncates to 25851. -/
theorem C1_counterexample :
    (EngineState.run_auction ⟨[providerS3], seedRoutes, .default⟩ jobS3 150).1.map
        AuctionMatch.price = .ok 25851 ∧
    (25851 : ℕ) ≠ 25852 := by
  constructor
  · decide
  · decide

/-- C1 as amended: for the S3 provider as sole candidate and the S3 job,
over any nonempty route set, any stats, and any priority, `run_auction`
succeeds and returns price 25851 — the real-arithmetic value 25852 is off
by one because the utilization factor is computed in `f64` and rounds to
just below 1.15. -/
theorem C1_amended (routes : List Route) (stats : AuctionStats) (priority : ℕ)
    (hroutes : routes ≠ []) :
    ∃ m : AuctionMatch,
      (EngineState.run_auction ⟨[providerS3], routes, stats⟩ jobS3 priority).1 = .ok m ∧
      m.price = 25851 := by
  rcases run_auction_cases ⟨[providerS3], routes, stats⟩ jobS3 priority with ⟨err, herr⟩ | h
  · exfalso
    have hm : EngineState.match_job ⟨[providerS3], routes, stats⟩ jobS3 =
        some [providerS3] := by simp only [EngineState.match_job]; decide
    obtain ⟨r, hr⟩ := select_route_isSome ⟨[providerS3], routes, stats⟩ priority hroutes
    rw [EngineState.run_auction, hm, hr] at herr
    simp at herr
  · obtain ⟨provider, rest, route, hm, hr, heq⟩ := h
    refine ⟨_, by rw [heq], ?_⟩
    have hm' : EngineState.match_job ⟨[providerS3], routes, stats⟩ jobS3 =
        some [providerS3] := by simp only [EngineState.match_job]; decide
    rw [hm'] at hm
    have hpp : providerS3 = provider := (List.cons.inj (Option.some.inj hm)).1
    rw [← hpp]
    show providerS3.calculate_price jobS3 = 25851
    decide

/-- Witness for `C1_amended` at the seed routes, default stats,
priority 150. -/
theorem C1_amended_witness :
    seedRoutes ≠ [] ∧
    ∃ m : AuctionMatch,
      (EngineState.run_auction ⟨[providerS3], seedRoutes, .default⟩ jobS3 150).1 = .ok m ∧
      m.price = 25851 :=
  ⟨by decide, C1_amended seedRoutes .default 150 (by decide)⟩

/-! ## Claim C2: provider utilization invariant -/

theorem find?_of_mem_nodup {l : List ComputeProvider} {p : ComputeProvider}
    (hnd : (l.map ComputeProvider.slp_id).Nodup) (hp : p ∈ l) :
    l.find? (fun q => q.slp_id == p.slp_id) = some p := by
  induction l with
  | nil => exact absurd hp (List.not_mem_nil p)
  | cons h t ih =>
    rcases List.mem_cons.mp hp with rfl | hpt
    · rw [List.find?_cons_of_pos]
      simp
    · rw [List.map_cons] at hnd
      obtain ⟨hnotin, hnd'⟩ := List.nodup_cons.mp hnd
      have hne : h.slp_id ≠ p.slp_id := fun hc =>
        hnotin (List.mem_map.mpr ⟨p, hpt, hc.symm⟩)
      rw [List.find?_cons_of_neg]
      · exact ih hnd' hpt
      · simp [hne]

/-- `bumpFirstUtilization` bumps exactly the first provider with the given
id: the result of `find?` before and after. -/
theorem bumpFirst_find? (l : List ComputeProvider) (sid : String) :
    (l.find? (fun q => q.slp_id == sid) = none ∧ bumpFirstUtilization l sid = l) ∨
    (∃ p, l.find? (fun q => q.slp_id == sid) = some p ∧
      (bumpFirstUtilization l sid).find? (fun q => q.slp_id == sid) =
        some { p with utilization := u32wrap (p.utilization + 1) }) := by
  induction l with
  | nil => left; exact ⟨rfl, rfl⟩
  | cons h t ih =>
    by_cases hh : h.slp_id = sid
    · right
      refine ⟨h, ?_, ?_⟩
      · rw [List.find?_cons_of_pos]
        simp [hh]
      · rw [bumpFirstUtilization, if_pos hh, List.find?_cons_of_pos]
        simp [hh]
    · rw [bumpFirstUtilization, if_neg hh]
      rcases ih with ⟨hf, hb⟩ | ⟨p, hf, hb⟩
      · left
        constructor
        · rw [List.find?_cons_of_neg _ (by simp [hh])]
          exact hf
        · rw [hb]
      · right
        refine ⟨p, ?_, ?_⟩
        · rw [List.find?_cons_of_neg _ (by simp [hh])]
          exact hf
        · rw [List.find?_cons_of_neg _ (by simp [hh])]
          exact hb

theorem bumpFirst_preserves (l : List ComputeProvider) (sid : String)
    (hinv : ∀ q ∈ l, q.utilization ≤ q.capacity)
    (hcap : ∀ q ∈ l, q.capacity < 2 ^ 32)
    (hfirst : ∀ p, l.find? (fun q => q.slp_id == sid) = some p →
      p.utilization < p.capacity) :
    ∀ x ∈ bumpFirstUtilization l sid, x.utilization ≤ x.capacity := by
  induction l with
  | nil => intro x hx; simp [bumpFirstUtilization] at hx
  | cons h t ih =>
    by_cases hh : h.slp_id = sid
    · rw [bumpFirstUtilization, if_pos hh]
      intro x hx
      rcases List.mem_cons.mp hx with rfl | hxt
      · have hfh : h.utilization < h.capacity := by
          apply hfirst
          rw [List.find?_cons_of_pos _ (by simp [hh])]
        have hc : h.capacity < 2 ^ 32 := hcap h (List.mem_cons_self _ _)
        simp only [u32wrap]
        rw [Nat.mod_eq_of_lt (by omega)]
        omega
      · exact hinv x (List.mem_cons.mpr (Or.inr hxt))
    · rw [bumpFirstUtilization, if_neg hh]
      intro x hx
      rcases List.mem_cons.mp hx with rfl | hxt
      · exact hinv x (List.mem_cons_self _ _)
      · refine ih (fun q hq => hinv q (List.mem_cons.mpr (Or.inr hq)))
          (fun q hq => hcap q (List.mem_cons.mpr (Or.inr hq))) ?_ x hxt
        intro p hp
        apply hfirst
        rw [List.find?_cons_of_neg _ (by simp [hh])]
        exact hp

/-- C2: providers with `utilization ≤ capacity` (and `u32` capacities and
distinct ids, as the provider store guarantees) keep that invariant under
`run_auction`, and an accepted match increments the matched provider's
utilization by exactly one, staying within capacity; only providers with
`utilization < capacity` are candidates. -/
theorem C2_utilization_invariant (e : EngineState) (job : GxfJob) (priority : ℕ)
    (hinv : ∀ p ∈ e.providers, p.utilization ≤ p.capacity)
    (hcap : ∀ p ∈ e.providers, p.capacity < 2 ^ 32)
    (hnd : (e.providers.map ComputeProvider.slp_id).Nodup) :
    (∀ p' ∈ (e.run_auction job priority).2.providers, p'.utilization ≤ p'.capacity) ∧
    (∀ m : AuctionMatch, (e.run_auction job priority).1 = .ok m →
      ∃ p p', e.providers.find? (fun q => q.slp_id == m.slp_id) = some p ∧
        (e.run_auction job priority).2.providers.find? (fun q => q.slp_id == m.slp_id) =
          some p' ∧
        p.utilization < p.capacity ∧
        p'.utilization = p.utilization + 1 ∧
        p'.utilization ≤ p'.capacity) := by
  rcases run_auction_cases e job priority with ⟨err, herr⟩ | h
  · rw [herr]
    refine ⟨hinv, ?_⟩
    intro m hm
    simp at hm
  · obtain ⟨provider, rest, route, hm, hr, heq⟩ := h
    obtain ⟨hmem, hch⟩ := match_head_can_handle hm
    obtain ⟨_, hlt⟩ := can_handle_spec hch
    have hfind : e.providers.find? (fun q => q.slp_id == provider.slp_id) = some provider :=
      find?_of_mem_nodup hnd hmem
    have hfirst : ∀ p, e.providers.find? (fun q => q.slp_id == provider.slp_id) = some p →
        p.utilization < p.capacity := by
      intro p hp
      rw [hfind] at hp
      rw [← Option.some.inj hp]
      exact hlt
    constructor
    · rw [heq]
      exact bumpFirst_preserves e.providers provider.slp_id hinv hcap hfirst
    · intro m hok
      rw [heq] at hok
      have hmeq : m = ⟨job.job_id, provider.slp_id, route.lane_id,
          provider.calculate_price job, route.path⟩ := by
        exact (Except.ok.inj hok).symm
      rcases bumpFirst_find? e.providers provider.slp_id with ⟨hf, _⟩ | ⟨p, hf, hb⟩
      · rw [hf] at hfind
        exact absurd hfind (by simp)
      · rw [hf] at hfind
        have hpp : p = provider := Option.some.inj hfind
        refine ⟨p, { p with utilization := u32wrap (p.utilization + 1) }, ?_, ?_, ?_, ?_, ?_⟩
        · rw [hmeq, hf]
        · rw [heq, hmeq]
          exact hb
        · rw [hpp]; exact hlt
        · have hcapp : p.capacity < 2 ^ 32 := by
            rw [hpp]; exact hcap provider hmem
          have : p.utilization < p.capacity := by rw [hpp]; exact hlt
          simp only [u32wrap]
          rw [Nat.mod_eq_of_lt (by omega)]
        · have : p.utilization < p.capacity := by rw [hpp]; exact hlt
          have hcapp : p.capacity < 2 ^ 32 := by
            rw [hpp]; exact hcap provider hmem
          simp only [u32wrap]
          rw [Nat.mod_eq_of_lt (by omega)]
          omega

/-- Witness for `C2_utilization_invariant` at the seed providers. -/
theorem C2_witness :
    (∀ p ∈ seedProviders, p.utilization ≤ p.capacity) ∧
    ((∀ p' ∈ ((⟨seedProviders, seedRoutes, .default⟩ : EngineState).run_auction jobS3 150).2.providers,
        p'.utilization ≤ p'.capacity)) := by
  constructor
  · decide
  · exact (C2_utilization_invariant ⟨seedProviders, seedRoutes, .default⟩ jobS3 150
      (by decide) (by decide) (by decide)).1

/-! ## Claim C6: auction statistics invariant -/

/-- Fold a sequence of auctions over the engine state. -/
def runAuctions (e : EngineState) : List (GxfJob × ℕ) → EngineState
  | [] => e
  | (job, pr) :: ops => runAuctions (e.run_auction job pr).2 ops

theorem run_auction_step_inv (e : EngineState) (job : GxfJob) (pr : ℕ)
    (h1 : e.stats.total_matches = e.stats.total_auctions)
    (h2 : e.stats.total_unmatched = 0) :
    (e.run_auction job pr).2.stats.total_matches =
      (e.run_auction job pr).2.stats.total_auctions ∧
    (e.run_auction job pr).2.stats.total_unmatched = 0 := by
  rcases run_auction_cases e job pr with ⟨err, herr⟩ | ⟨p, rest, route, _, _, heq⟩
  · rw [herr]; exact ⟨h1, h2⟩
  · rw [heq]
    refine ⟨?_, h2⟩
    simp only [commitStats]
    rw [h1]

theorem runAuctions_inv : ∀ (ops : List (GxfJob × ℕ)) (e : EngineState),
    e.stats.total_matches = e.stats.total_auctions →
    e.stats.total_unmatched = 0 →
    (runAuctions e ops).stats.total_matches = (runAuctions e ops).stats.total_auctions ∧
    (runAuctions e ops).stats.total_unmatched = 0 := by
  intro ops
  induction ops with
  | nil => intro e h1 h2; exact ⟨h1, h2⟩
  | cons op rest ih =>
    intro e h1 h2
    obtain ⟨g1, g2⟩ := run_auction_step_inv e op.1 op.2 h1 h2
    exact ih _ g1 g2

/-- C6: from the default (zero) statistics, after any sequence of auctions
`total_matches + total_unmatched ≤ total_auctions`; and a successful
`run_auction` adds exactly the returned price to `total_volume` (as a
`u64` addition; exactly, absent `u64` overflow). -/
theorem C6_stats_invariant :
    (∀ (providers : List ComputeProvider) (routes : List Route)
       (ops : List (GxfJob × ℕ)),
      (runAuctions ⟨providers, routes, .default⟩ ops).stats.total_matches +
        (runAuctions ⟨providers, routes, .default⟩ ops).stats.total_unmatched ≤
        (runAuctions ⟨providers, routes, .default⟩ ops).stats.total_auctions) ∧
    (∀ (e : EngineState) (job : GxfJob) (pr : ℕ) (m : AuctionMatch),
      (e.run_auction job pr).1 = .ok m →
      (e.run_auction job pr).2.stats.total_volume =
        u64wrap (e.stats.total_volume + m.price) ∧
      (e.stats.total_volume + m.price < 2 ^ 64 →
        (e.run_auction job pr).2.stats.total_volume =
          e.stats.total_volume + m.price)) := by
  constructor
  · intro providers routes ops
    obtain ⟨g1, g2⟩ := runAuctions_inv ops ⟨providers, routes, .default⟩ rfl rfl
    rw [g1, g2]
    omega
  · intro e job pr m hok
    rcases run_auction_cases e job pr with ⟨err, herr⟩ | ⟨p, rest, route, _, _, heq⟩
    · rw [herr] at hok; simp at hok
    · rw [heq] at hok ⊢
      have hmeq : m = ⟨job.job_id, p.slp_id, route.lane_id,
          p.calculate_price job, route.path⟩ := (Except.ok.inj hok).symm
      constructor
      · rw [hmeq]
        rfl
      · intro hlt
        rw [hmeq]
        simp only [commitStats, u64wrap]
        rw [hmeq] at hlt
        exact Nat.mod_eq_of_lt hlt

/-- Witness for `C6_stats_invariant` on the seed engine and the S3 job. -/
theorem C6_witness :
    ∃ m : AuctionMatch,
      ((⟨seedProviders, seedRoutes, .default⟩ : EngineState).run_auction jobS3 150).1 = .ok m ∧
      ((⟨seedProviders, seedRoutes, .default⟩ : EngineState).run_auction jobS3 150).2.stats.total_volume =
        u64wrap ((AuctionStats.default).total_volume + m.price) := by
  refine ⟨⟨jobS3.job_id, "slp-eu-west-1", 0, 25740, ["node-1", "node-2"]⟩, ?_, ?_⟩
  · decide
  · exact (C6_stats_invariant.2 ⟨seedProviders, seedRoutes, .default⟩ jobS3 150
      ⟨jobS3.job_id, "slp-eu-west-1", 0, 25740, ["node-1", "node-2"]⟩ (by decide)).1

/-! ## Claim C3: routing by priority -/

/-- The S1 envelope: schema version 3, priority 150, no expiry, payload
carrying the serialized S3 job. -/
def envS1 : GxfEnvelope := ⟨⟨3, 150, 1000, none, none, none, []⟩, printJson (encodeJob jobS3)⟩

/-- C3: lane selection is the deterministic function of priority and lane
occupancy the spec describes (primary lane 0 iff priority ≥ 128, primary
chosen while it has spare capacity, otherwise the other lane, otherwise
the all-lanes-at-capacity error), and the S1 scenario routes a
priority-150 envelope through an empty router to lane 0 with
`total_routed = 1`. -/
theorem C3_lane_selection :
    (∀ (l0 l1 : LaneInfo) (stats : ℕ → ℕ) (tr : ℕ) (priority : ℕ),
      l0.id = 0 → l1.id = 1 →
      RouterState.select_lane ⟨[l0, l1], stats, tr⟩ priority =
        (let primary := if 128 ≤ priority then l0 else l1
         let other := if 128 ≤ priority then l1 else l0
         if primary.active_jobs < primary.capacity then .ok primary.id
         else if other.active_jobs < other.capacity then .ok other.id
         else .error (.internalError "All lanes at capacity"))) ∧
    ((routerProcessEnvelope RouterState.new envS1 2000).1 = .ok 0 ∧
     (routerProcessEnvelope RouterState.new envS1 2000).2.total_routed = 1) := by
  constructor
  · intro l0 l1 stats tr priority h0 h1
    by_cases hp : 128 ≤ priority
    · simp only [RouterState.select_lane, if_pos hp, List.get?]
      split_ifs <;> first | rfl | omega
    · simp only [RouterState.select_lane, if_neg hp, List.get?]
      split_ifs <;> first | rfl | omega
  · constructor
    · decide
    · decide

/-! ## Claim C4: expiry rejection on all entry paths -/

/-- The S2 envelope: `created_at = 1000`, `expires_at = 1001`. -/
def envS2 : GxfEnvelope := ⟨⟨3, 100, 1000, some 1001, none, none, []⟩, [48]⟩

/-- C4 counterexample: an expired envelope whose `schema_version` is 99 is
rejected with the version error, not an expiry error — the version check
runs first, so not every envelope with `expires_at ≤ now` yields an
expiry error. -/
theorem C4_counterexample :
    (routerProcessEnvelope RouterState.new
        ⟨⟨99, 150, 1000, some 1001, none, none, []⟩, [48]⟩ 2000).1 =
      .error (.validation (.invalidVersion 3 99)) ∧
    RouterFailure.validation (.invalidVersion 3 99) ≠
      RouterFailure.validation (.expired 1001 2000) ∧
    RouterFailure.validation (.invalidVersion 3 99) ≠ RouterFailure.envelopeExpired := by
  refine ⟨?_, ?_, ?_⟩ <;> decide

theorem validate_expired (env : GxfEnvelope) (t now : ℕ)
    (h3 : env.meta.schema_version = 3) (he : env.meta.expires_at = some t)
    (hle : t ≤ now) :
    env.validate now = .error (.expired t now) := by
  have hm : env.meta.validate now = .error (.expired t now) := by
    rw [GxfMetadata.validate, h3, he]
    simp [GXF_VERSION, hle]
  rw [GxfEnvelope.validate]
  simp [hm, Bind.bind, Except.bind]

/-- C4 as amended: an envelope with valid schema version (3) and
`expires_at ≤ now` is rejected by the Router, the Auction entry path, and
the Runtime entry path with the expiry error, with no state change; on any
routing failure the router counters are unchanged; and the S2 scenario
(`created_at=1000`, `expires_at=1001`, `now=2000`) yields the expiry error
with counters untouched. -/
theorem C4_amended :
    (∀ (s : RouterState) (env : GxfEnvelope) (t now : ℕ),
      env.meta.schema_version = 3 → env.meta.expires_at = some t → t ≤ now →
      routerProcessEnvelope s env now = (.error (.validation (.expired t now)), s)) ∧
    (∀ (e : EngineState) (env : GxfEnvelope) (t now : ℕ),
      env.meta.schema_version = 3 → env.meta.expires_at = some t → t ≤ now →
      auctionProcessEnvelope e env now = (.error (.validation (.expired t now)), e)) ∧
    (∀ (rt : RuntimeState) (hash : List ℕ → List ℕ) (stats : ExecutionStats)
       (env : GxfEnvelope) (t now : ℕ),
      env.meta.schema_version = 3 → env.meta.expires_at = some t → t ≤ now →
      runtimeProcessEnvelope rt hash stats env now =
        (.error (.validation (.expired t now)), stats)) ∧
    (∀ (s : RouterState) (env : GxfEnvelope) (now : ℕ) (err : RouterFailure),
      (routerProcessEnvelope s env now).1 = .error err →
      (routerProcessEnvelope s env now).2 = s) ∧
    (routerProcessEnvelope RouterState.new envS2 2000 =
      (.error (.validation (.expired 1001 2000)), RouterState.new)) := by
  have hrouter : ∀ (s : RouterState) (env : GxfEnvelope) (t now : ℕ),
      env.meta.schema_version = 3 → env.meta.expires_at = some t → t ≤ now →
      routerProcessEnvelope s env now = (.error (.validation (.expired t now)), s) := by
    intro s env t now h3 he hle
    rw [routerProcessEnvelope, validate_expired env t now h3 he hle]
  refine ⟨hrouter, ?_, ?_, ?_, ?_⟩
  · intro e env t now h3 he hle
    rw [auctionProcessEnvelope, validate_expired env t now h3 he hle]
  · intro rt hash stats env t now h3 he hle
    rw [runtimeProcessEnvelope, validate_expired env t now h3 he hle]
  · intro s env now err h
    rw [routerProcessEnvelope] at h ⊢
    cases hv : env.validate now with
    | error e => simp
    | ok u =>
      cases u
      rw [hv] at h
      try simp only [] at h ⊢
      by_cases hexp : env.meta.is_expired now = true
      · simp [hexp]
      · rw [if_neg hexp] at h ⊢
        cases hd : env.deserialize_job with
        | error e => simp
        | ok job =>
          rw [hd] at h
          try simp only [] at h ⊢
          cases hjv : job.validate with
          | error e => simp
          | ok u2 =>
            cases u2
            rw [hjv] at h
            try simp only [] at h ⊢
            cases hsl : s.select_lane env.meta.priority with
            | error e => simp
            | ok lid =>
              rw [hsl] at h
              try simp only [] at h
              exact Except.noConfusion h
  · exact hrouter RouterState.new envS2 1001 2000 rfl rfl (by omega)

/-- Witness for `C4_amended` at the S2 envelope on each of the three entry
paths. -/
theorem C4_amended_witness :
    routerProcessEnvelope RouterState.new envS2 2000 =
      (.error (.validation (.expired 1001 2000)), RouterState.new) ∧
    auctionProcessEnvelope ⟨seedProviders, seedRoutes, .default⟩ envS2 2000 =
      (.error (.validation (.expired 1001 2000)), ⟨seedProviders, seedRoutes, .default⟩) ∧
    runtimeProcessEnvelope RuntimeState.new (fun bs => bs) .default envS2 2000 =
      (.error (.validation (.expired 1001 2000)), .default) :=
  ⟨C4_amended.1 RouterState.new envS2 1001 2000 rfl rfl (by omega),
   C4_amended.2.1 ⟨seedProviders, seedRoutes, .default⟩ envS2 1001 2000 rfl rfl (by omega),
   C4_amended.2.2.1 RuntimeState.new (fun bs => bs) .default envS2 1001 2000 rfl rfl (by omega)⟩

/-- Witness for `C3_lane_selection` at the default lanes and priority 150. -/
theorem C3_witness :
    RouterState.select_lane ⟨[⟨0, "Flash", 100, 0⟩, ⟨1, "Deep", 50, 0⟩], fun _ => 0, 0⟩ 150 =
      (let primary := if 128 ≤ 150 then (⟨0, "Flash", 100, 0⟩ : LaneInfo) else ⟨1, "Deep", 50, 0⟩
       let other := if 128 ≤ 150 then (⟨1, "Deep", 50, 0⟩ : LaneInfo) else ⟨0, "Flash", 100, 0⟩
       if primary.active_jobs < primary.capacity then .ok primary.id
       else if other.active_jobs < other.capacity then .ok other.id
       else .error (.internalError "All lanes at capacity")) :=
  C3_lane_selection.1 ⟨0, "Flash", 100, 0⟩ ⟨1, "Deep", 50, 0⟩ (fun _ => 0) 0 150 rfl rfl

/-! ## Claim C8: runtime compliance gate -/

/-- The S5 job: valid precision and shape, `parameters["region"]="APAC"`. -/
def jobAPAC : GxfJob := ⟨⟨List.replicate 16 0⟩, .BF16, 1024, [("region", "APAC")]⟩

/-- The S6 job: `kv_cache_seq_len = 9000` against the default limit 8192. -/
def jobShape : GxfJob := ⟨⟨List.replicate 16 0⟩, .BF16, 9000, []⟩

/-- C8: the compliance gate runs precision, then shape, then residency,
first failure short-circuiting; a compliance failure returns before any
counter is bumped; with the default policy, the APAC job fails with
`ResidencyViolation` leaving `total_executed` unchanged, and the
9000-token job fails with `ShapeViolation`. -/
theorem C8_compliance_gate :
    (∀ (rt : RuntimeState) (job : GxfJob) (e : ComplianceError),
      rt.check_precision job = .error e → rt.check_compliance job = .error e) ∧
    (∀ (rt : RuntimeState) (job : GxfJob) (e : ComplianceError),
      rt.check_precision job = .ok () → rt.check_shape job = .error e →
      rt.check_compliance job = .error e) ∧
    (∀ (rt : RuntimeState) (job : GxfJob),
      rt.check_precision job = .ok () → rt.check_shape job = .ok () →
      rt.check_compliance job = rt.check_residency job) ∧
    (∀ (rt : RuntimeState) (hash : List ℕ → List ℕ) (stats : ExecutionStats)
       (job : GxfJob) (e : ComplianceError),
      rt.check_compliance job = .error e →
      rt.execute_job hash stats job = (.error e, stats)) ∧
    (∀ (hash : List ℕ → List ℕ) (stats : ExecutionStats),
      (RuntimeState.new.execute_job hash stats jobAPAC).1 =
        .error (.residencyViolation "APAC") ∧
      (RuntimeState.new.execute_job hash stats jobAPAC).2.total_executed =
        stats.total_executed) ∧
    (∀ (hash : List ℕ → List ℕ) (stats : ExecutionStats),
      (RuntimeState.new.execute_job hash stats jobShape).1 =
        .error (.shapeViolation 9000 8192)) := by
  have hcomp : ∀ (rt : RuntimeState) (hash : List ℕ → List ℕ) (stats : ExecutionStats)
      (job : GxfJob) (e : ComplianceError),
      rt.check_compliance job = .error e →
      rt.execute_job hash stats job = (.error e, stats) := by
    intro rt hash stats job e h
    rw [RuntimeState.execute_job, h]
  have hAPAC : RuntimeState.new.check_compliance jobAPAC =
      .error (.residencyViolation "APAC") := by decide
  have hShape : RuntimeState.new.check_compliance jobShape =
      .error (.shapeViolation 9000 8192) := by decide
  refine ⟨?_, ?_, ?_, hcomp, ?_, ?_⟩
  · intro rt job e h
    rw [RuntimeState.check_compliance]
    simp [h, Bind.bind, Except.bind]
  · intro rt job e h1 h2
    rw [RuntimeState.check_compliance]
    simp [h1, h2, Bind.bind, Except.bind]
  · intro rt job h1 h2
    rw [RuntimeState.check_compliance]
    simp [h1, h2, Bind.bind, Except.bind]
  · intro hash stats
    rw [hcomp RuntimeState.new hash stats jobAPAC _ hAPAC]
    exact ⟨rfl, rfl⟩
  · intro hash stats
    rw [hcomp RuntimeState.new hash stats jobShape _ hShape]

/-- Witness for `C8_compliance_gate` with the identity hash and zero
statistics. -/
theorem C8_witness :
    (RuntimeState.new.execute_job (fun bs => bs) .default jobAPAC).1 =
      .error (.residencyViolation "APAC") ∧
    (RuntimeState.new.execute_job (fun bs => bs) .default jobAPAC).2.total_executed =
      (ExecutionStats.default).total_executed ∧
    (RuntimeState.new.execute_job (fun bs => bs) .default jobShape).1 =
      .error (.shapeViolation 9000 8192) :=
  ⟨(C8_compliance_gate.2.2.2.2.1 (fun bs => bs) .default).1,
   (C8_compliance_gate.2.2.2.2.1 (fun bs => bs) .default).2,
   C8_compliance_gate.2.2.2.2.2 (fun bs => bs) .default⟩

/-! ## Claim C9: simulated execution always completes -/

/-- Fold a sequence of `execute_job` calls over the statistics. -/
def runJobs (rt : RuntimeState) (hash : List ℕ → List ℕ) :
    ExecutionStats → List GxfJob → ExecutionStats
  | stats, [] => stats
  | stats, j :: js => runJobs rt hash (rt.execute_job hash stats j).2 js

/-- The number of jobs in the list that pass the compliance gate (exactly
the successful `execute_job` calls). -/
def countSuccesses (rt : RuntimeState) : List GxfJob → ℕ
  | [] => 0
  | j :: js =>
    (match rt.check_compliance j with
     | .ok _ => 1
     | .error _ => 0) + countSuccesses rt js

theorem execute_job_step (rt : RuntimeState) (hash : List ℕ → List ℕ)
    (stats : ExecutionStats) (job : GxfJob) :
    ((rt.execute_job hash stats job).2.total_failed = stats.total_failed ∧
     (rt.execute_job hash stats job).2.total_rejected = stats.total_rejected) ∧
    ((rt.execute_job hash stats job).2.total_completed =
      (match rt.check_compliance job with
       | .ok _ => u64wrap (stats.total_completed + 1)
       | .error _ => stats.total_completed)) ∧
    ((rt.execute_job hash stats job).2.total_executed =
      (match rt.check_compliance job with
       | .ok _ => u64wrap (stats.total_executed + 1)
       | .error _ => stats.total_executed)) := by
  rw [RuntimeState.execute_job]
  cases h : rt.check_compliance job with
  | error e => exact ⟨⟨rfl, rfl⟩, rfl, rfl⟩
  | ok u => cases u; exact ⟨⟨rfl, rfl⟩, rfl, rfl⟩

theorem runJobs_counts (rt : RuntimeState) (hash : List ℕ → List ℕ) :
    ∀ (jobs : List GxfJob) (stats : ExecutionStats),
    stats.total_completed < 2 ^ 64 → stats.total_executed < 2 ^ 64 →
    (runJobs rt hash stats jobs).total_failed = stats.total_failed ∧
    (runJobs rt hash stats jobs).total_rejected = stats.total_rejected ∧
    (runJobs rt hash stats jobs).total_completed =
      u64wrap (stats.total_completed + countSuccesses rt jobs) ∧
    (runJobs rt hash stats jobs).total_executed =
      u64wrap (stats.total_executed + countSuccesses rt jobs) := by
  intro jobs
  induction jobs with
  | nil =>
    intro stats hc hx
    refine ⟨rfl, rfl, ?_, ?_⟩ <;>
      simp only [runJobs, countSuccesses, u64wrap] <;> omega
  | cons j js ih =>
    intro stats hc hx
    obtain ⟨⟨s1, s2⟩, s3, s4⟩ := execute_job_step rt hash stats j
    have hstep : runJobs rt hash stats (j :: js) =
        runJobs rt hash (rt.execute_job hash stats j).2 js := rfl
    have hc' : (rt.execute_job hash stats j).2.total_completed < 2 ^ 64 := by
      rw [s3]
      cases h : rt.check_compliance j with
      | error e => exact hc
      | ok u => exact Nat.mod_lt _ (by norm_num)
    have hx' : (rt.execute_job hash stats j).2.total_executed < 2 ^ 64 := by
      rw [s4]
      cases h : rt.check_compliance j with
      | error e => exact hx
      | ok u => exact Nat.mod_lt _ (by norm_num)
    obtain ⟨i1, i2, i3, i4⟩ := ih (rt.execute_job hash stats j).2 hc' hx'
    refine ⟨?_, ?_, ?_, ?_⟩
    · rw [hstep, i1, s1]
    · rw [hstep, i2, s2]
    · rw [hstep, i3, s3]
      cases h : rt.check_compliance j with
      | error e =>
        simp only [countSuccesses, h, u64wrap]
        omega
      | ok u =>
        simp only [countSuccesses, h, u64wrap]
        rw [Nat.mod_add_mod]
        omega
    · rw [hstep, i4, s4]
      cases h : rt.check_compliance j with
      | error e =>
        simp only [countSuccesses, h, u64wrap]
        omega
      | ok u =>
        simp only [countSuccesses, h, u64wrap]
        rw [Nat.mod_add_mod]
        omega

/-- C9: every `ExecutionResult` that `execute_job` returns has status
`Completed` (simulated execution cannot fail or be rejected), so starting
from zero statistics `total_failed` and `total_rejected` stay 0 after any
sequence of calls, and `total_completed` equals the number of successful
calls (as a `u64`; exactly, absent overflow), which also equals
`total_executed`. -/
theorem C9_execution_always_completes :
    (∀ (rt : RuntimeState) (hash : List ℕ → List ℕ) (stats : ExecutionStats)
       (job : GxfJob) (r : ExecutionResult),
      (rt.execute_job hash stats job).1 = .ok r → r.status = .completed) ∧
    (∀ (rt : RuntimeState) (hash : List ℕ → List ℕ) (jobs : List GxfJob),
      (runJobs rt hash .default jobs).total_failed = 0 ∧
      (runJobs rt hash .default jobs).total_rejected = 0 ∧
      (runJobs rt hash .default jobs).total_completed =
        u64wrap (countSuccesses rt jobs) ∧
      (countSuccesses rt jobs < 2 ^ 64 →
        (runJobs rt hash .default jobs).total_completed = countSuccesses rt jobs) ∧
      (runJobs rt hash .default jobs).total_completed =
        (runJobs rt hash .default jobs).total_executed) := by
  constructor
  · intro rt hash stats job r h
    rw [RuntimeState.execute_job] at h
    cases hcc : rt.check_compliance job with
    | error e => rw [hcc] at h; exact Except.noConfusion h
    | ok u =>
      cases u
      rw [hcc] at h
      simp only [] at h
      have : RuntimeState.simulate_execution hash job = r := Except.ok.inj h
      rw [← this]
      rfl
  · intro rt hash jobs
    obtain ⟨g1, g2, g3, g4⟩ := runJobs_counts rt hash jobs .default
      (by norm_num [ExecutionStats.default]) (by norm_num [ExecutionStats.default])
    rw [show ExecutionStats.default.total_failed = 0 from rfl] at g1
    rw [show ExecutionStats.default.total_rejected = 0 from rfl] at g2
    rw [show ExecutionStats.default.total_completed = 0 from rfl, Nat.zero_add] at g3
    rw [show ExecutionStats.default.total_executed = 0 from rfl, Nat.zero_add] at g4
    refine ⟨g1, g2, g3, ?_, ?_⟩
    · intro hlt
      rw [g3]
      simp only [u64wrap]
      omega
    · rw [g3, g4]

/-- Witness for `C9_execution_always_completes`: a concrete successful
execution of the S3 job. -/
theorem C9_witness :
    (RuntimeState.new.execute_job (fun bs => bs) .default jobS3).1 =
      .ok ⟨jobS3.job_id, .completed, 12, List.replicate 16 0⟩ ∧
    (⟨jobS3.job_id, ExecutionStatus.completed, 12, List.replicate 16 0⟩ :
        ExecutionResult).status = .completed :=
  ⟨by decide,
   C9_execution_always_completes.1 RuntimeState.new (fun bs => bs) .default jobS3
     ⟨jobS3.job_id, .completed, 12, List.replicate 16 0⟩ (by decide)⟩

/-! ## Claim C10: route scores are finite, comparisons never fail -/

theorem round_num_of_le (q B : ℚ) (h0 : 0 ≤ q) (hq : q ≤ B) (hB : 2 * B < f64Bound) :
    ∃ s, F64.round q = .num s ∧ 0 ≤ s ∧ s ≤ 2 * B := by
  have h2 : f64round q ≤ 2 * q := f64round_le_two_mul q h0
  have hlt : f64round q < f64Bound := by linarith
  refine ⟨f64round q, F64.round_num_of_lt q h0 hlt, f64round_nonneg q h0, by linarith⟩

theorem score_finite (r : Route) (hl : r.latency_ms < 2 ^ 64) (hc : r.cost < 2 ^ 64) :
    ∃ q, r.score = .num q ∧ 0 ≤ q := by
  have hbig : ∀ (k : ℕ), k ≤ 68 → 2 * (2:ℚ) ^ k < f64Bound := by
    intro k hk
    have h1 : 2 * (2:ℚ) ^ k ≤ 2 * (2:ℚ) ^ 68 := by
      have := pow_le_pow_right₀ (by norm_num : (1:ℚ) ≤ 2) hk
      linarith
    have h2 : 2 * (2:ℚ) ^ 68 < (2:ℚ) ^ 1024 := by
      rw [show (2:ℚ) * 2 ^ 68 = 2 ^ 69 from by ring]
      exact pow_lt_pow_right₀ (by norm_num) (by norm_num)
    have h3 : f64Bound = (2:ℚ) ^ 1024 := by
      rw [f64Bound]
      push_cast
      ring
    rw [h3]
    linarith
  have hlat : ((r.latency_ms : ℚ)) ≤ (2:ℚ) ^ 64 := by
    calc ((r.latency_ms : ℚ)) ≤ ((2 ^ 64 : ℕ) : ℚ) := by exact_mod_cast hl.le
      _ = (2:ℚ) ^ 64 := by push_cast; ring
  have hcost : ((r.cost : ℚ)) ≤ (2:ℚ) ^ 64 := by
    calc ((r.cost : ℚ)) ≤ ((2 ^ 64 : ℕ) : ℚ) := by exact_mod_cast hc.le
      _ = (2:ℚ) ^ 64 := by push_cast; ring
  obtain ⟨a, ha, ha0, haB⟩ := round_num_of_le (r.latency_ms : ℚ) ((2:ℚ) ^ 64)
    (by positivity) hlat (hbig 64 (by norm_num))
  obtain ⟨c, hcc, hc0, hcB⟩ := round_num_of_le (r.cost : ℚ) ((2:ℚ) ^ 64)
    (by positivity) hcost (hbig 64 (by norm_num))
  have haB' : a ≤ (2:ℚ) ^ 65 := by
    calc a ≤ 2 * (2:ℚ) ^ 64 := haB
      _ = (2:ℚ) ^ 65 := by ring
  have hcB' : c ≤ (2:ℚ) ^ 65 := by
    calc c ≤ 2 * (2:ℚ) ^ 64 := hcB
      _ = (2:ℚ) ^ 65 := by ring
  have hdiv1 : a / 1000 ≤ (2:ℚ) ^ 65 := by
    have : a / 1000 ≤ a := by
      apply div_le_self ha0
      norm_num
    linarith
  have hdiv2 : c / 1000000 ≤ (2:ℚ) ^ 65 := by
    have : c / 1000000 ≤ c := by
      apply div_le_self hc0
      norm_num
    linarith
  obtain ⟨b1, hb1, hb10, hb1B⟩ := round_num_of_le (a / 1000) ((2:ℚ) ^ 65)
    (by positivity) hdiv1 (hbig 65 (by norm_num))
  obtain ⟨b2, hb2, hb20, hb2B⟩ := round_num_of_le (c / 1000000) ((2:ℚ) ^ 65)
    (by positivity) hdiv2 (hbig 65 (by norm_num))
  have hsum : b1 + b2 ≤ (2:ℚ) ^ 67 := by
    have e1 : (2:ℚ) * 2 ^ 65 + 2 * 2 ^ 65 = 2 ^ 67 := by ring
    linarith
  obtain ⟨s, hs, hs0, _⟩ := round_num_of_le (b1 + b2) ((2:ℚ) ^ 67)
    (by linarith) hsum (hbig 67 (by norm_num))
  refine ⟨s, ?_, hs0⟩
  rw [Route.score]
  simp only [F64.ofNat]
  rw [ha, hcc]
  simp only [F64.div]
  rw [if_neg (by norm_num : ¬ (1000:ℚ) = 0), if_neg (by norm_num : ¬ (1000000:ℚ) = 0)]
  rw [hb1, hb2]
  simp only [F64.add]
  exact hs

/-- C10: for routes with `u64` fields, `score()` is a finite (non-NaN,
non-infinite) `f64` value — the fields are unsigned integers divided by
the nonzero constants 1000 and 1000000 — so `partial_cmp` between any two
route scores is always `Some`, and the `unwrap` in `select_route` cannot
panic. -/
theorem C10_score_no_nan (a b : Route)
    (ha1 : a.latency_ms < 2 ^ 64) (ha2 : a.cost < 2 ^ 64)
    (hb1 : b.latency_ms < 2 ^ 64) (hb2 : b.cost < 2 ^ 64) :
    (∃ qa, a.score = .num qa) ∧ (∃ qb, b.score = .num qb) ∧
    ∃ o, a.score.pcmp b.score = some o := by
  obtain ⟨qa, hqa, _⟩ := score_finite a ha1 ha2
  obtain ⟨qb, hqb, _⟩ := score_finite b hb1 hb2
  refine ⟨⟨qa, hqa⟩, ⟨qb, hqb⟩, ?_⟩
  rw [hqa, hqb]
  exact ⟨_, rfl⟩

/-- Witness for `C10_score_no_nan` at the two seed routes. -/
theorem C10_witness :
    ∃ o, (Route.score ⟨"route-flash-1", 0, ["node-1", "node-2"], 50, 100⟩).pcmp
      (Route.score ⟨"route-deep-1", 1, ["node-3", "node-4", "node-5"], 150, 80⟩) = some o :=
  (C10_score_no_nan ⟨"route-flash-1", 0, ["node-1", "node-2"], 50, 100⟩
    ⟨"route-deep-1", 1, ["node-3", "node-4", "node-5"], 150, 80⟩
    (by norm_num) (by norm_num) (by norm_num) (by norm_num)).2.2

/-! ## Claim C7: route selection -/

/-- The value of a route score in the order `WithTop ℚ` (infinite scores,
which only arise for out-of-`u64`-range fields, compare as `⊤`; scores are
never NaN, see `score_shape`). -/
def scoreVal (r : Route) : WithTop ℚ :=
  match r.score with
  | .num q => (q : WithTop ℚ)
  | _ => ⊤

theorem round_shape (q : ℚ) (h : 0 ≤ q) :
    F64.round q = .num (f64round q) ∨ F64.round q = .inf true := by
  rw [F64.round]
  by_cases h1 : f64Bound ≤ f64round q
  · right; simp [h1]
  · left
    have h3 : ¬ (f64round q ≤ -f64Bound) := by
      have hb := f64Bound_pos
      have hn := f64round_nonneg q h
      intro hc
      linarith
    simp [h1, h3]

theorem div_const_shape (x : F64) (d : ℚ) (hd : 0 < d)
    (hx : (∃ q, x = .num q ∧ 0 ≤ q) ∨ x = .inf true) :
    (∃ q, F64.div x (.num d) = .num q ∧ 0 ≤ q) ∨ F64.div x (.num d) = .inf true := by
  rcases hx with ⟨q, hq, h0⟩ | hq
  · rw [hq]
    simp only [F64.div]
    rw [if_neg (ne_of_gt hd)]
    rcases round_shape (q / d) (by positivity) with h | h
    · left; exact ⟨_, h, f64round_nonneg _ (by positivity)⟩
    · right; exact h
  · rw [hq]
    right
    simp [F64.div, hd.le]

theorem add_shape (x y : F64)
    (hx : (∃ q, x = .num q ∧ 0 ≤ q) ∨ x = .inf true)
    (hy : (∃ q, y = .num q ∧ 0 ≤ q) ∨ y = .inf true) :
    (∃ q, F64.add x y = .num q ∧ 0 ≤ q) ∨ F64.add x y = .inf true := by
  rcases hx with ⟨a, hxa, ha0⟩ | hxa <;> rcases hy with ⟨b, hyb, hb0⟩ | hyb <;>
    rw [hxa, hyb] <;> simp only [F64.add]
  · rcases round_shape (a + b) (by linarith) with h | h
    · left; exact ⟨_, h, f64round_nonneg _ (by linarith)⟩
    · right; exact h
  · right; trivial
  · right; trivial
  · right; simp

/-- Every route score is a nonnegative finite value or `+∞`; in particular
it is never NaN. -/
theorem score_shape (r : Route) :
    (∃ q, r.score = .num q ∧ 0 ≤ q) ∨ r.score = .inf true := by
  rw [Route.score]
  apply add_shape
  · apply div_const_shape _ _ (by norm_num : (0:ℚ) < 1000)
    simp only [F64.ofNat]
    rcases round_shape (r.latency_ms : ℚ) (by positivity) with h | h
    · left; exact ⟨_, h, f64round_nonneg _ (by positivity)⟩
    · right; exact h
  · apply div_const_shape _ _ (by norm_num : (0:ℚ) < 1000000)
    simp only [F64.ofNat]
    rcases round_shape (r.cost : ℚ) (by positivity) with h | h
    · left; exact ⟨_, h, f64round_nonneg _ (by positivity)⟩
    · right; exact h

/-- The comparison the source folds with (`partial_cmp(..).unwrap()`)
agrees with the `WithTop ℚ` order on score values. -/
theorem cmp_gt_iff (x y : Route) :
    ((x.score.pcmp y.score).getD .eq = .gt) ↔ scoreVal y < scoreVal x := by
  rcases score_shape x with ⟨a, hx, _⟩ | hx <;> rcases score_shape y with ⟨b, hy, _⟩ | hy <;>
    simp only [scoreVal, hx, hy, F64.pcmp, Option.getD_some]
  · constructor
    · intro h
      by_cases h1 : a < b
      · rw [if_pos h1] at h
        exact absurd h (by simp)
      · by_cases h2 : b < a
        · exact WithTop.coe_lt_coe.mpr h2
        · rw [if_neg h1, if_neg h2] at h
          exact absurd h (by simp)
    · intro h
      have hba : b < a := WithTop.coe_lt_coe.mp h
      rw [if_neg (by linarith), if_pos hba]
  · simp
  · simp [WithTop.coe_lt_top]
  · simp

/-- The accumulator step of the source's `min_by` fold, rewritten through
`cmp_gt_iff`. -/
theorem minBy_step_eq :
    (fun (acc y : Route) => if ((acc.score.pcmp y.score).getD .eq) = .gt then y else acc) =
    (fun (acc y : Route) => if scoreVal y < scoreVal acc then y else acc) := by
  funext acc y
  by_cases h : scoreVal y < scoreVal acc
  · rw [if_pos h, if_pos ((cmp_gt_iff acc y).mpr h)]
  · rw [if_neg h, if_neg (fun hc => h ((cmp_gt_iff acc y).mp hc))]

/-- Rust `min_by` keeps the accumulator on ties, so the fold returns the
first minimum: either the start value (when nothing beats it) or a list
element strictly below the start value and everything before it. -/
theorem foldl_argmin : ∀ (l : List Route) (a : Route),
    (l.foldl (fun acc y => if scoreVal y < scoreVal acc then y else acc) a = a ∧
      ∀ y ∈ l, scoreVal a ≤ scoreVal y) ∨
    (∃ res l₁ l₂,
      l.foldl (fun acc y => if scoreVal y < scoreVal acc then y else acc) a = res ∧
      l = l₁ ++ res :: l₂ ∧ scoreVal res < scoreVal a ∧
      (∀ y ∈ l, scoreVal res ≤ scoreVal y) ∧
      ∀ y ∈ l₁, scoreVal res < scoreVal y) := by
  intro l
  induction l with
  | nil => intro a; left; exact ⟨rfl, by simp⟩
  | cons y ys ih =>
    intro a
    rw [List.foldl_cons]
    by_cases hy : scoreVal y < scoreVal a
    · rw [if_pos hy]
      rcases ih y with ⟨heq, hall⟩ | ⟨res, l₁, l₂, heq, hdec, hlt, hall, hfirst⟩
      · right
        refine ⟨y, [], ys, heq, by simp, hy, ?_, by simp⟩
        intro z hz
        rcases List.mem_cons.mp hz with rfl | hz2
        · exact le_refl _
        · exact hall z hz2
      · right
        refine ⟨res, y :: l₁, l₂, heq, by rw [hdec]; simp, lt_trans hlt hy, ?_, ?_⟩
        · intro z hz
          rcases List.mem_cons.mp hz with rfl | hz2
          · exact hlt.le
          · exact hall z hz2
        · intro z hz
          rcases List.mem_cons.mp hz with rfl | hz2
          · exact hlt
          · exact hfirst z hz2
    · rw [if_neg hy]
      have hay : scoreVal a ≤ scoreVal y := not_lt.mp hy
      rcases ih a with ⟨heq, hall⟩ | ⟨res, l₁, l₂, heq, hdec, hlt, hall, hfirst⟩
      · left
        refine ⟨heq, ?_⟩
        intro z hz
        rcases List.mem_cons.mp hz with rfl | hz2
        · exact hay
        · exact hall z hz2
      · right
        refine ⟨res, y :: l₁, l₂, heq, by rw [hdec]; simp, hlt, ?_, ?_⟩
        · intro z hz
          rcases List.mem_cons.mp hz with rfl | hz2
          · exact le_of_lt (lt_of_lt_of_le hlt hay)
          · exact hall z hz2
        · intro z hz
          rcases List.mem_cons.mp hz with rfl | hz2
          · exact lt_of_lt_of_le hlt hay
          · exact hfirst z hz2

/-- `minByScore` returns the first element of minimal score: a minimum of
the list, with every earlier element strictly greater. -/
theorem minByScore_spec (l : List Route) (r : Route) (h : minByScore l = some r) :
    (∀ y ∈ l, scoreVal r ≤ scoreVal y) ∧
    ∃ l₁ l₂, l = l₁ ++ r :: l₂ ∧ ∀ y ∈ l₁, scoreVal r < scoreVal y := by
  cases l with
  | nil => exact absurd h (by simp [minByScore])
  | cons x xs =>
    rw [minByScore, minBy_step_eq] at h
    have hr := Option.some.inj h
    rcases foldl_argmin xs x with ⟨heq, hall⟩ | ⟨res, l₁, l₂, heq, hdec, hlt, hall, hfirst⟩
    · rw [heq] at hr
      rw [← hr]
      constructor
      · intro z hz
        rcases List.mem_cons.mp hz with rfl | hz2
        · exact le_refl _
        · exact hall z hz2
      · exact ⟨[], xs, by simp, by simp⟩
    · rw [heq] at hr
      rw [← hr]
      constructor
      · intro z hz
        rcases List.mem_cons.mp hz with rfl | hz2
        · exact hlt.le
        · exact hall z hz2
      · refine ⟨x :: l₁, l₂, by rw [hdec]; simp, ?_⟩
        intro z hz
        rcases List.mem_cons.mp hz with rfl | hz2
        · exact hlt
        · exact hfirst z hz2

theorem minByScore_eq_none_iff (l : List Route) : minByScore l = none ↔ l = [] := by
  cases l <;> simp [minByScore]

/-- C7: routes are partitioned by lane (primary = lane 0 iff
priority ≥ 128); selection returns a minimum-score route of the primary
partition, or of all routes when the primary partition is empty, with ties
broken in favor of the earliest-inserted route; `run_auction` fails with
the no-route error exactly when the route set is empty (given a matched
provider). -/
theorem C7_route_selection (e : EngineState) (priority : ℕ) :
    (e.select_route priority = none ↔ e.routes = []) ∧
    (∀ r, e.select_route priority = some r →
      (∀ y ∈ (if (if 128 ≤ priority then e.routes.filter (fun rt => rt.lane_id = 0)
                  else e.routes.filter (fun rt => rt.lane_id = 1)).isEmpty
              then e.routes
              else (if 128 ≤ priority then e.routes.filter (fun rt => rt.lane_id = 0)
                    else e.routes.filter (fun rt => rt.lane_id = 1))),
        scoreVal r ≤ scoreVal y) ∧
      ∃ l₁ l₂,
        (if (if 128 ≤ priority then e.routes.filter (fun rt => rt.lane_id = 0)
             else e.routes.filter (fun rt => rt.lane_id = 1)).isEmpty
         then e.routes
         else (if 128 ≤ priority then e.routes.filter (fun rt => rt.lane_id = 0)
               else e.routes.filter (fun rt => rt.lane_id = 1))) = l₁ ++ r :: l₂ ∧
        ∀ y ∈ l₁, scoreVal r < scoreVal y) ∧
    (∀ (job : GxfJob) (provider : ComputeProvider) (rest : List ComputeProvider),
      e.match_job job = some (provider :: rest) →
      ((e.run_auction job priority).1 = .error (.internalError "No route available") ↔
        e.routes = [])) := by
  have hnone : e.select_route priority = none ↔ e.routes = [] := by
    rw [EngineState.select_route]
    by_cases hemp : (if 128 ≤ priority then e.routes.filter (fun rt => rt.lane_id = 0)
        else e.routes.filter (fun rt => rt.lane_id = 1)).isEmpty
    · rw [if_pos hemp]
      exact minByScore_eq_none_iff e.routes
    · rw [if_neg hemp]
      constructor
      · intro h
        rw [minByScore_eq_none_iff] at h
        rw [h] at hemp
        by_cases hp : 128 ≤ priority <;> simp [hp] at hemp
      · intro h
        exfalso
        rw [h] at hemp
        by_cases hp : 128 ≤ priority <;> simp [hp] at hemp
  refine ⟨hnone, ?_, ?_⟩
  · intro r hr
    rw [EngineState.select_route] at hr
    by_cases hemp : (if 128 ≤ priority then e.routes.filter (fun rt => rt.lane_id = 0)
        else e.routes.filter (fun rt => rt.lane_id = 1)).isEmpty
    · rw [if_pos hemp] at hr
      obtain ⟨hall, l₁, l₂, hdec, hfirst⟩ := minByScore_spec _ _ hr
      rw [if_pos hemp]
      exact ⟨hall, l₁, l₂, hdec, hfirst⟩
    · rw [if_neg hemp] at hr
      obtain ⟨hall, l₁, l₂, hdec, hfirst⟩ := minByScore_spec _ _ hr
      rw [if_neg hemp]
      exact ⟨hall, l₁, l₂, hdec, hfirst⟩
  · intro job provider rest hm
    rw [EngineState.run_auction, hm]
    cases hs : e.select_route priority with
    | none =>
      simp only []
      constructor
      · intro _
        exact hnone.mp hs
      · intro _
        trivial
    | some route =>
      simp only []
      constructor
      · intro h
        exact absurd h (by simp)
      · intro h
        exfalso
        have := hnone.mpr h
        rw [hs] at this
        exact Option.noConfusion this

/-- Witness for `C7_route_selection`: on the seed routes at priority 150,
the selected route is `route-flash-1` and it minimizes the score over the
lane-0 partition. -/
theorem C7_witness :
    ∀ y ∈ (if (if 128 ≤ 150 then seedRoutes.filter (fun rt => rt.lane_id = 0)
               else seedRoutes.filter (fun rt => rt.lane_id = 1)).isEmpty
           then seedRoutes
           else (if 128 ≤ 150 then seedRoutes.filter (fun rt => rt.lane_id = 0)
                 else seedRoutes.filter (fun rt => rt.lane_id = 1))),
      scoreVal ⟨"route-flash-1", 0, ["node-1", "node-2"], 50, 100⟩ ≤ scoreVal y :=
  ((C7_route_selection ⟨seedProviders, seedRoutes, .default⟩ 150).2.1
    ⟨"route-flash-1", 0, ["node-1", "node-2"], 50, 100⟩ (by decide)).1

/-! ## Claim C5: the wire codec is lossless

Groundwork: the printer and parser of the compact JSON form invert each
other on printed output. -/

/-- No byte of the remaining input may continue a decimal literal. -/
def headNotDigit : List ℕ → Prop
  | [] => True
  | c :: _ => ¬ (48 ≤ c ∧ c ≤ 57)

theorem natDigitsAux_eq : ∀ (f n : ℕ), n ≤ f → natDigitsAux f n = Nat.digits 10 n := by
  intro f
  induction f with
  | zero =>
    intro n h
    have : n = 0 := by omega
    simp [natDigitsAux, this]
  | succ f ih =>
    intro n h
    by_cases hn : n = 0
    · simp [natDigitsAux, hn]
    · rw [natDigitsAux, if_neg hn, ih (n / 10) (by omega)]
      exact (Nat.digits_def' (by norm_num : 1 < 10) (by omega)).symm

theorem parseNumAux_append (ds : List ℕ) :
    ∀ (acc : ℕ) (rest : List ℕ), (∀ d ∈ ds, 48 ≤ d ∧ d ≤ 57) → headNotDigit rest →
    parseNumAux (ds ++ rest) acc =
      (ds.foldl (fun a d => 10 * a + (d - 48)) acc, rest) := by
  induction ds with
  | nil =>
    intro acc rest _ hrest
    cases rest with
    | nil => rfl
    | cons c r =>
      rw [List.nil_append, parseNumAux, if_neg hrest]
      rfl
  | cons d ds ih =>
    intro acc rest hds hrest
    rw [List.cons_append, parseNumAux,
      if_pos (hds d (List.mem_cons_self _ _)), List.foldl_cons]
    exact ih _ rest (fun x hx => hds x (List.mem_cons.mpr (Or.inr hx))) hrest

theorem foldl_digits_reverse (L : List ℕ) :
    ∀ a : ℕ, L.reverse.foldl (fun x d => 10 * x + d) a =
      a * 10 ^ L.length + Nat.ofDigits 10 L := by
  induction L with
  | nil => intro a; simp
  | cons d L ih =>
    intro a
    rw [List.reverse_cons, List.foldl_append, ih a]
    simp only [List.foldl_cons, List.foldl_nil, Nat.ofDigits_cons, List.length_cons]
    ring

theorem natDigitsAux_lt : ∀ (f n d : ℕ), d ∈ natDigitsAux f n → d < 10 := by
  intro f
  induction f with
  | zero => intro n d h; simp [natDigitsAux] at h
  | succ f ih =>
    intro n d h
    rw [natDigitsAux] at h
    split at h
    · simp at h
    · rcases List.mem_cons.mp h with rfl | h2
      · omega
      · exact ih _ _ h2

theorem printNat_digits (n : ℕ) : ∀ d ∈ printNat n, 48 ≤ d ∧ d ≤ 57 := by
  intro d hd
  rw [printNat] at hd
  split at hd
  · simp at hd
    omega
  · obtain ⟨x, hx, hdx⟩ := List.mem_map.mp hd
    have := natDigitsAux_lt n n x (List.mem_reverse.mp hx)
    omega

theorem parseNum_print (n : ℕ) (rest : List ℕ) (hrest : headNotDigit rest) :
    parseNumAux (printNat n ++ rest) 0 = (n, rest) := by
  rw [parseNumAux_append (printNat n) 0 rest (printNat_digits n) hrest]
  congr 1
  by_cases hn : n = 0
  · simp [printNat, hn]
  · rw [printNat, if_neg hn]
    have hmap : (List.map (fun d => 48 + d) (natDigitsAux n n).reverse).foldl
        (fun a d => 10 * a + (d - 48)) 0 =
        (natDigitsAux n n).reverse.foldl (fun a d => 10 * a + d) 0 := by
      rw [List.foldl_map]
      congr 1
      funext a d
      omega
    rw [hmap, natDigitsAux_eq n n le_rfl, foldl_digits_reverse]
    simp [Nat.ofDigits_digits]

theorem parseStr_print : ∀ (s rest : List ℕ),
    parseStr (escapeStr s ++ (34 :: rest)) = some (s, rest) := by
  intro s
  induction s with
  | nil =>
    intro rest
    rw [escapeStr, List.nil_append, parseStr.eq_def]
    simp
  | cons b bs ih =>
    intro rest
    rw [escapeStr, List.append_assoc]
    by_cases h34 : b = 34
    · rw [h34]
      rw [show escByte 34 = [92, 34] from rfl]
      rw [show ([92, 34] : List ℕ) ++ (escapeStr bs ++ (34 :: rest)) =
        92 :: 34 :: (escapeStr bs ++ (34 :: rest)) from rfl]
      simp [parseStr, ih rest]
    · by_cases h92 : b = 92
      · rw [h92]
        rw [show escByte 92 = [92, 92] from rfl]
        rw [show ([92, 92] : List ℕ) ++ (escapeStr bs ++ (34 :: rest)) =
          92 :: 92 :: (escapeStr bs ++ (34 :: rest)) from rfl]
        simp [parseStr, ih rest]
      · rw [show escByte b = [b] from by rw [escByte, if_neg h34, if_neg h92]]
        rw [show ([b] : List ℕ) ++ (escapeStr bs ++ (34 :: rest)) =
          b :: (escapeStr bs ++ (34 :: rest)) from rfl]
        rw [parseStr.eq_def]
        simp only [if_neg h34, if_neg h92]
        rw [ih rest]
        rfl

theorem printNat_shape (n : ℕ) : ∃ c cs, printNat n = c :: cs ∧ 48 ≤ c ∧ c ≤ 57 := by
  by_cases hn : n = 0
  · exact ⟨48, [], by simp [printNat, hn], by norm_num, by norm_num⟩
  · cases h : printNat n with
    | nil =>
      exfalso
      rw [printNat, if_neg hn] at h
      have hlen := congrArg List.length h
      simp only [List.length_map, List.length_reverse, List.length_nil] at hlen
      rw [natDigitsAux_eq n n le_rfl] at hlen
      exact (Nat.digits_ne_nil_iff_ne_zero.mpr hn) (List.length_eq_zero.mp hlen)
    | cons c cs =>
      have hc : c ∈ printNat n := by rw [h]; exact List.mem_cons_self _ _
      obtain ⟨h1, h2⟩ := printNat_digits n c hc
      exact ⟨c, cs, rfl, h1, h2⟩

theorem printJson_headD (j : Json) (l : List ℕ) :
    (printJson j ++ l).headD 0 ≠ 93 ∧ (printJson j ++ l).headD 0 ≠ 125 := by
  cases j with
  | num n =>
    obtain ⟨c, cs, hp, h1, h2⟩ := printNat_shape n
    rw [show printJson (.num n) = printNat n from rfl, hp]
    simp only [List.cons_append, List.headD_cons]
    omega
  | str s =>
    rw [show printJson (.str s) = printStr s from rfl, printStr]
    simp only [List.cons_append, List.headD_cons]
    omega
  | arr xs =>
    rw [show printJson (.arr xs) = 91 :: printArrElems xs from rfl]
    simp only [List.cons_append, List.headD_cons]
    omega
  | obj fs =>
    rw [show printJson (.obj fs) = 123 :: printObjFields fs from rfl]
    simp only [List.cons_append, List.headD_cons]
    omega

theorem json_size_pos (j : Json) : 1 ≤ j.size := by
  cases j <;> simp [Json.size, JsonList.size, JsonFields.size] <;> omega

theorem jsonList_size_pos (xs : JsonList) : 1 ≤ xs.size := by
  cases xs <;> simp [Json.size, JsonList.size] <;> omega

theorem jsonFields_size_pos (fs : JsonFields) : 1 ≤ fs.size := by
  cases fs <;> simp [Json.size, JsonFields.size] <;> omega

theorem headNotDigit_cons (c : ℕ) (l : List ℕ) (h : c < 48 ∨ 57 < c) :
    headNotDigit (c :: l) := by
  simp only [headNotDigit]
  omega

theorem parseVal_cons (f : ℕ) (c : ℕ) (l : List ℕ) :
    parseVal (f + 1) (c :: l) =
      (if c = 34 then (parseStr l).map (fun p => (Json.str p.1, p.2))
       else if c = 91 then
         if l.headD 0 = 93 then some (.arr .nil, l.tail)
         else (parseArrElems f l).map (fun p => (Json.arr p.1, p.2))
       else if c = 123 then
         if l.headD 0 = 125 then some (.obj .nil, l.tail)
         else (parseObjFields f l).map (fun p => (Json.obj p.1, p.2))
       else if 48 ≤ c ∧ c ≤ 57 then
         some (.num (parseNumAux (c :: l) 0).1, (parseNumAux (c :: l) 0).2)
       else none) := rfl

theorem parseArrElems_succ (f : ℕ) (bs : List ℕ) :
    parseArrElems (f + 1) bs =
      (match parseVal f bs with
       | none => none
       | some (v, rest) =>
         if rest.headD 0 = 44 then
           (parseArrElems f rest.tail).map (fun p => (JsonList.cons v p.1, p.2))
         else if rest.headD 0 = 93 then some (.cons v .nil, rest.tail)
         else none) := rfl

theorem parseObjFields_cons (f : ℕ) (c : ℕ) (l : List ℕ) :
    parseObjFields (f + 1) (c :: l) =
      (if c = 34 then
        match parseStr l with
        | none => none
        | some (key, r1) =>
          if r1.headD 0 = 58 then
            match parseVal f r1.tail with
            | none => none
            | some (v, r3) =>
              if r3.headD 0 = 44 then
                (parseObjFields f r3.tail).map
                  (fun p => (JsonFields.cons key v p.1, p.2))
              else if r3.headD 0 = 125 then some (.cons key v .nil, r3.tail)
              else none
          else none
      else none) := rfl

/- The printer-parser roundtrip, by mutual structural induction on the
document. -/
mutual

theorem parseVal_print (j : Json) (fuel : ℕ) (rest : List ℕ)
    (hs : Json.size j ≤ fuel) (hr : headNotDigit rest) :
    parseVal fuel (printJson j ++ rest) = some (j, rest) := by
  obtain ⟨f, rfl⟩ : ∃ f, fuel = f + 1 := by
    have := json_size_pos j
    exact ⟨fuel - 1, by omega⟩
  cases j with
  | num n =>
    obtain ⟨c, cs, hp, h1, h2⟩ := printNat_shape n
    rw [show printJson (.num n) = printNat n from rfl, hp, List.cons_append, parseVal_cons]
    rw [if_neg (show ¬ (c = 34) from by omega), if_neg (show ¬ (c = 91) from by omega),
      if_neg (show ¬ (c = 123) from by omega), if_pos (show 48 ≤ c ∧ c ≤ 57 from ⟨h1, h2⟩)]
    rw [← List.cons_append, ← hp, parseNum_print n rest hr]
  | str s =>
    rw [show printJson (.str s) = 34 :: (escapeStr s ++ [34]) from rfl, List.cons_append,
      List.append_assoc, show ([34] : List ℕ) ++ rest = 34 :: rest from rfl, parseVal_cons]
    rw [if_pos rfl, parseStr_print s rest]
    rfl
  | arr xs =>
    cases xs with
    | nil =>
      rw [show printJson (.arr .nil) = 91 :: printArrElems .nil from rfl,
        show printArrElems .nil = [93] from rfl, List.cons_append,
        show ([93] : List ℕ) ++ rest = 93 :: rest from rfl, parseVal_cons]
      rw [if_neg (show ¬ ((91:ℕ) = 34) from by omega), if_pos rfl,
        if_pos (show (93 :: rest).headD 0 = 93 from rfl)]
      rfl
    | cons v tl =>
      rw [show printJson (.arr (.cons v tl)) = 91 :: printArrElems (.cons v tl) from rfl,
        List.cons_append, parseVal_cons]
      rw [if_neg (show ¬ ((91:ℕ) = 34) from by omega), if_pos rfl]
      have hhead : (printArrElems (.cons v tl) ++ rest).headD 0 ≠ 93 := by
        cases tl with
        | nil =>
          rw [show printArrElems (.cons v .nil) = printJson v ++ [93] from rfl,
            List.append_assoc]
          exact (printJson_headD v _).1
        | cons v2 tl2 =>
          rw [show printArrElems (.cons v (.cons v2 tl2)) =
            printJson v ++ 44 :: printArrElems (.cons v2 tl2) from rfl, List.append_assoc]
          exact (printJson_headD v _).1
      rw [if_neg hhead]
      rw [parseArr_print v tl f rest
        (by simp only [Json.size] at hs; omega) hr]
      rfl
  | obj fs =>
    cases fs with
    | nil =>
      rw [show printJson (.obj .nil) = 123 :: printObjFields .nil from rfl,
        show printObjFields .nil = [125] from rfl, List.cons_append,
        show ([125] : List ℕ) ++ rest = 125 :: rest from rfl, parseVal_cons]
      rw [if_neg (show ¬ ((123:ℕ) = 34) from by omega),
        if_neg (show ¬ ((123:ℕ) = 91) from by omega), if_pos rfl,
        if_pos (show (125 :: rest).headD 0 = 125 from rfl)]
      rfl
    | cons k v tl =>
      rw [show printJson (.obj (.cons k v tl)) = 123 :: printObjFields (.cons k v tl) from rfl,
        List.cons_append, parseVal_cons]
      rw [if_neg (show ¬ ((123:ℕ) = 34) from by omega),
        if_neg (show ¬ ((123:ℕ) = 91) from by omega), if_pos rfl]
      have hhead : (printObjFields (.cons k v tl) ++ rest).headD 0 ≠ 125 := by
        cases tl with
        | nil =>
          rw [show printObjFields (.cons k v .nil) =
            printStr k ++ 58 :: (printJson v ++ [125]) from rfl, printStr]
          simp only [List.cons_append, List.headD_cons]
          omega
        | cons k2 v2 tl2 =>
          rw [show printObjFields (.cons k v (.cons k2 v2 tl2)) =
            printStr k ++ 58 :: (printJson v ++ 44 :: printObjFields (.cons k2 v2 tl2)) from rfl,
            printStr]
          simp only [List.cons_append, List.headD_cons]
          omega
      rw [if_neg hhead]
      rw [parseObj_print k v tl f rest
        (by simp only [Json.size] at hs; omega) hr]
      rfl
termination_by Json.size j
decreasing_by
  all_goals subst_vars
  all_goals simp only [Json.size, JsonList.size, JsonFields.size]
  all_goals omega

theorem parseArr_print (v : Json) (tl : JsonList) (fuel : ℕ) (rest : List ℕ)
    (hs : (JsonList.cons v tl).size ≤ fuel) (hr : headNotDigit rest) :
    parseArrElems fuel (printArrElems (.cons v tl) ++ rest) =
      some (.cons v tl, rest) := by
  obtain ⟨f, rfl⟩ : ∃ f, fuel = f + 1 := by
    have := jsonList_size_pos (.cons v tl)
    exact ⟨fuel - 1, by omega⟩
  have hvsize : Json.size v ≤ f := by
    have h1 := jsonList_size_pos tl
    simp only [JsonList.size] at hs
    omega
  cases tl with
  | nil =>
    rw [show printArrElems (.cons v .nil) = printJson v ++ [93] from rfl, List.append_assoc,
      show ([93] : List ℕ) ++ rest = 93 :: rest from rfl, parseArrElems_succ]
    rw [parseVal_print v f (93 :: rest) hvsize (headNotDigit_cons 93 rest (by omega))]
    simp
  | cons v2 tl2 =>
    rw [show printArrElems (.cons v (.cons v2 tl2)) =
      printJson v ++ 44 :: printArrElems (.cons v2 tl2) from rfl, List.append_assoc,
      show (44 :: printArrElems (.cons v2 tl2)) ++ rest =
        44 :: (printArrElems (.cons v2 tl2) ++ rest) from rfl, parseArrElems_succ]
    rw [parseVal_print v f _ hvsize (headNotDigit_cons 44 _ (by omega))]
    simp only [List.headD_cons, List.tail_cons]
    rw [parseArr_print v2 tl2 f rest (by simp only [JsonList.size] at hs ⊢; omega) hr]
    simp
termination_by (JsonList.cons v tl).size
decreasing_by
  all_goals subst_vars
  all_goals simp only [Json.size, JsonList.size, JsonFields.size]
  all_goals omega

theorem parseObj_print (k : List ℕ) (v : Json) (tl : JsonFields) (fuel : ℕ)
    (rest : List ℕ) (hs : (JsonFields.cons k v tl).size ≤ fuel)
    (hr : headNotDigit rest) :
    parseObjFields fuel (printObjFields (.cons k v tl) ++ rest) =
      some (.cons k v tl, rest) := by
  obtain ⟨f, rfl⟩ : ∃ f, fuel = f + 1 := by
    have := jsonFields_size_pos (.cons k v tl)
    exact ⟨fuel - 1, by omega⟩
  have hvsize : Json.size v ≤ f := by
    have h1 := jsonFields_size_pos tl
    simp only [JsonFields.size] at hs
    omega
  cases tl with
  | nil =>
    rw [show printObjFields (.cons k v .nil) =
      printStr k ++ 58 :: (printJson v ++ [125]) from rfl, printStr]
    simp only [List.cons_append, List.append_assoc, List.singleton_append, List.nil_append]
    rw [parseObjFields_cons, if_pos rfl]
    rw [show escapeStr k ++ 34 :: 58 :: (printJson v ++ 125 :: rest) =
      escapeStr k ++ (34 :: (58 :: (printJson v ++ 125 :: rest))) from rfl]
    rw [parseStr_print k (58 :: (printJson v ++ 125 :: rest))]
    simp only [List.headD_cons, List.tail_cons]
    rw [parseVal_print v f (125 :: rest) hvsize (headNotDigit_cons 125 rest (by omega))]
    simp
  | cons k2 v2 tl2 =>
    rw [show printObjFields (.cons k v (.cons k2 v2 tl2)) =
      printStr k ++ 58 :: (printJson v ++ 44 :: printObjFields (.cons k2 v2 tl2)) from rfl,
      printStr]
    simp only [List.cons_append, List.append_assoc, List.singleton_append, List.nil_append]
    rw [parseObjFields_cons, if_pos rfl]
    rw [show escapeStr k ++ 34 :: 58 :: (printJson v ++ 44 :: (printObjFields (.cons k2 v2 tl2) ++ rest)) =
      escapeStr k ++ (34 :: (58 :: (printJson v ++ 44 :: (printObjFields (.cons k2 v2 tl2) ++ rest)))) from rfl]
    rw [parseStr_print k (58 :: (printJson v ++ 44 :: (printObjFields (.cons k2 v2 tl2) ++ rest)))]
    simp only [List.headD_cons, List.tail_cons]
    rw [parseVal_print v f _ hvsize (headNotDigit_cons 44 _ (by omega))]
    simp only [List.headD_cons, List.tail_cons]
    rw [parseObj_print k2 v2 tl2 f rest (by simp only [JsonFields.size] at hs ⊢; omega) hr]
    simp
termination_by (JsonFields.cons k v tl).size
decreasing_by
  all_goals subst_vars
  all_goals simp only [Json.size, JsonList.size, JsonFields.size]
  all_goals omega

end

mutual

theorem json_size_le_print (j : Json) :
    Json.size j + 1 ≤ 2 * (printJson j).length := by
  cases j with
  | num n =>
    obtain ⟨c, cs, hp, _, _⟩ := printNat_shape n
    simp only [Json.size, printJson, hp, List.length_cons]
    omega
  | str s =>
    simp only [Json.size, printJson, printStr, List.length_cons, List.length_append]
    omega
  | arr xs =>
    have := jsonList_size_le_print xs
    simp only [Json.size, printJson, List.length_cons]
    omega
  | obj fs =>
    have := jsonFields_size_le_print fs
    simp only [Json.size, printJson, List.length_cons]
    omega
termination_by Json.size j
decreasing_by
  all_goals subst_vars
  all_goals simp only [Json.size, JsonList.size, JsonFields.size]
  all_goals omega

theorem jsonList_size_le_print (xs : JsonList) :
    JsonList.size xs + 1 ≤ 2 * (printArrElems xs).length := by
  cases xs with
  | nil => simp [JsonList.size, printArrElems]
  | cons x tl =>
    cases tl with
    | nil =>
      have := json_size_le_print x
      simp only [JsonList.size, printArrElems, List.length_append, List.length_cons,
        List.length_nil]
      omega
    | cons y ys =>
      have h1 := json_size_le_print x
      have h2 := jsonList_size_le_print (.cons y ys)
      simp only [JsonList.size, printArrElems, List.length_append, List.length_cons,
        List.length_nil] at h2 ⊢
      omega
termination_by JsonList.size xs
decreasing_by
  all_goals subst_vars
  all_goals simp only [Json.size, JsonList.size, JsonFields.size]
  all_goals omega

theorem jsonFields_size_le_print (fs : JsonFields) :
    JsonFields.size fs + 1 ≤ 2 * (printObjFields fs).length := by
  cases fs with
  | nil => simp [JsonFields.size, printObjFields]
  | cons k v tl =>
    cases tl with
    | nil =>
      have := json_size_le_print v
      simp only [JsonFields.size, printObjFields, printStr, List.length_append,
        List.length_cons, List.length_nil]
      omega
    | cons k2 v2 tl2 =>
      have h1 := json_size_le_print v
      have h2 := jsonFields_size_le_print (.cons k2 v2 tl2)
      simp only [JsonFields.size, printObjFields, printStr, List.length_append,
        List.length_cons, List.length_nil] at h2 ⊢
      omega
termination_by JsonFields.size fs
decreasing_by
  all_goals subst_vars
  all_goals simp only [Json.size, JsonList.size, JsonFields.size]
  all_goals omega

end

/-- Round trip at the document level: parsing a printed JSON value (with all
input consumed) returns the value. -/
theorem parseJson_print (j : Json) : parseJson (printJson j) = some j := by
  rw [parseJson]
  have h := parseVal_print j (2 * (printJson j).length + 1) []
    (by have := json_size_le_print j; omega) trivial
  rw [List.append_nil] at h
  rw [h]

/-- Decoding the model's string rendering recovers the string (every `Char`
round-trips through its code point). -/
theorem bytesToStr_strToBytes (s : String) : bytesToStr (strToBytes s) = s := by
  cases s with
  | mk data =>
    simp [bytesToStr, strToBytes, List.map_map, Function.comp_def, Char.ofNat_toNat,
      String.toList]

/-- `decodeByteArr` inverts the byte-array encoding used for payloads and
job ids, provided every byte is in range. -/
theorem decodeByteArr_foldr (bs : List ℕ) (h : ∀ b ∈ bs, b < 256) :
    decodeByteArr (bs.foldr (fun b acc => JsonList.cons (.num b) acc) .nil) = some bs := by
  induction bs with
  | nil => rfl
  | cons b tl ih =>
    have hb : b < 256 := h b (by simp)
    simp only [List.foldr_cons, decodeByteArr, if_pos hb,
      ih (fun x hx => h x (by simp [hx]))]
    rfl

/-- `decodeStrMap` inverts the string-map encoding used for `parameters`
and `additional_fields`. -/
theorem decodeStrMap_foldr (ps : List (String × String)) :
    decodeStrMap (ps.foldr
      (fun (kv : String × String) acc =>
        JsonFields.cons (strToBytes kv.1) (.str (strToBytes kv.2)) acc) .nil) =
      some ps := by
  induction ps with
  | nil => rfl
  | cons kv tl ih =>
    simp [List.foldr_cons, decodeStrMap, ih, bytesToStr_strToBytes]

/-- `decodeMeta` inverts `encodeMeta` when the numeric fields are in the
ranges the Rust types impose. -/
theorem decodeMeta_encodeMeta (m : GxfMetadata)
    (h1 : m.schema_version < 2 ^ 8) (h2 : m.priority < 2 ^ 8)
    (h3 : m.created_at < 2 ^ 64)
    (h4 : ∀ x, m.expires_at = some x → x < 2 ^ 64) :
    decodeMeta (encodeMeta m) = .ok m := by
  obtain ⟨v, p, c, eo, so, lo, af⟩ := m
  simp only at h1 h2 h3 h4
  have h1' : v < 256 := by omega
  have h2' : p < 256 := by omega
  have h3' : c < 18446744073709551616 := by omega
  cases eo with
  | none =>
    cases so <;> cases lo <;>
      simp +decide [decodeMeta, encodeMeta, JsonFields.lookup, h1', h2', h3',
        decodeStrMap_foldr, bytesToStr_strToBytes]
  | some x =>
    have hx : x < 18446744073709551616 := by have := h4 x rfl; omega
    cases so <;> cases lo <;>
      simp +decide [decodeMeta, encodeMeta, JsonFields.lookup, h1', h2', h3', hx,
        decodeStrMap_foldr, bytesToStr_strToBytes]

/-- `decodeEnvelope` inverts `encodeEnvelope` when the metadata numbers are
in range and the payload is made of bytes. -/
theorem decodeEnvelope_encodeEnvelope (e : GxfEnvelope)
    (h1 : e.meta.schema_version < 2 ^ 8) (h2 : e.meta.priority < 2 ^ 8)
    (h3 : e.meta.created_at < 2 ^ 64)
    (h4 : ∀ x, e.meta.expires_at = some x → x < 2 ^ 64)
    (h5 : ∀ b ∈ e.payload, b < 256) :
    decodeEnvelope (encodeEnvelope e) = .ok e := by
  obtain ⟨m, payload⟩ := e
  simp only at h1 h2 h3 h4 h5
  simp +decide [decodeEnvelope, encodeEnvelope, JsonFields.lookup,
    decodeMeta_encodeMeta m h1 h2 h3 h4, decodeByteArr_foldr payload h5]

/-- A string whose characters print as single ASCII bytes; the byte-level
string model is faithful exactly on this range. -/
def plainStr (s : String) : Prop := ∀ c ∈ s.data, 32 ≤ c.toNat ∧ c.toNat < 127

instance (s : String) : Decidable (plainStr s) := by
  unfold plainStr; infer_instance

/-- Well-formedness of an envelope as produced by the Rust types: `u8`/`u64`
numeric fields in range, payload made of bytes, and ASCII text fields. -/
def envelopeWF (e : GxfEnvelope) : Prop :=
  e.meta.schema_version < 2 ^ 8 ∧ e.meta.priority < 2 ^ 8 ∧
  e.meta.created_at < 2 ^ 64 ∧
  (match e.meta.expires_at with | some x => x < 2 ^ 64 | none => True) ∧
  (match e.meta.source_slp with | some s => plainStr s | none => True) ∧
  (match e.meta.target_lane with | some t => plainStr t | none => True) ∧
  (∀ kv ∈ e.meta.additional_fields, plainStr kv.1 ∧ plainStr kv.2) ∧
  (∀ b ∈ e.payload, b < 256)

instance (e : GxfEnvelope) : Decidable (envelopeWF e) := by
  unfold envelopeWF
  cases e.meta.expires_at <;> cases e.meta.source_slp <;>
    cases e.meta.target_lane <;> infer_instance

/-- C5: the wire codec is lossless with respect to validation: for every
well-formed envelope `e`, `from_json (to_json e)` returns `e` itself —
preserving all metadata fields and the payload bytes — and therefore
`validate` applied to the decoded envelope agrees with `validate e` at
every time. -/
theorem C5_codec_lossless (e : GxfEnvelope) (h : envelopeWF e) :
    GxfEnvelope.from_json (GxfEnvelope.to_json e) = .ok e ∧
    ∀ (e2 : GxfEnvelope) (now : ℕ),
      GxfEnvelope.from_json (GxfEnvelope.to_json e) = .ok e2 →
      e2.validate now = e.validate now := by
  obtain ⟨h1, h2, h3, h4, h5, h6, h7, h8⟩ := h
  have h4' : ∀ x, e.meta.expires_at = some x → x < 2 ^ 64 := by
    intro x hx
    rw [hx] at h4
    exact h4
  have hr : GxfEnvelope.from_json (GxfEnvelope.to_json e) = .ok e := by
    rw [GxfEnvelope.to_json, GxfEnvelope.from_json, parseJson_print]
    exact decodeEnvelope_encodeEnvelope e h1 h2 h3 h4' h8
  refine ⟨hr, ?_⟩
  intro e2 now he2
  rw [hr] at he2
  obtain rfl : e = e2 := Except.ok.inj he2
  rfl

theorem C5_witness :
    envelopeWF ⟨⟨3, 150, 1000, some 2000, some "slp-a", none, [("k", "v")]⟩,
      [123, 125]⟩ ∧
    (GxfEnvelope.from_json (GxfEnvelope.to_json
        ⟨⟨3, 150, 1000, some 2000, some "slp-a", none, [("k", "v")]⟩,
          [123, 125]⟩) =
      .ok ⟨⟨3, 150, 1000, some 2000, some "slp-a", none, [("k", "v")]⟩,
        [123, 125]⟩ ∧
    ∀ (e2 : GxfEnvelope) (now : ℕ),
      GxfEnvelope.from_json (GxfEnvelope.to_json
        ⟨⟨3, 150, 1000, some 2000, some "slp-a", none, [("k", "v")]⟩,
          [123, 125]⟩) = .ok e2 →
      e2.validate now =
        GxfEnvelope.validate
          ⟨⟨3, 150, 1000, some 2000, some "slp-a", none, [("k", "v")]⟩,
            [123, 125]⟩ now) :=
  ⟨by decide, C5_codec_lossless _ (by decide)⟩
